import Mathlib

/-!
Shallow embedding of the `training_logger` repository
(`training_logger/training_logger.py` and `training_logger/visualizers.py`)
for checking the natural-language specification against the code.

Python state is threaded explicitly: every mutating method of
`TrainingLogger` is a function from the logger state (and, where the
method touches the run directory, the directory contents) to a result
paired with the post-call state; a raised exception is `Except.error`
carrying the state at the moment of the raise, since Python leaves
partial mutations in place.  Numeric values are modelled as rationals,
pandas frames as an explicit column list / index list / cell
association list, and the two on-disk files of a run directory as
fields of a `DirContents` record.
-/

namespace TL

/-- Characters used by the Python metadata serialization
(`str(self.metadata)` on write, `.replace` plus `json.loads` on read:
`training_logger.py` lines 46-48 and 96-98). -/
def squote : Char := Char.ofNat 39

/-- Double-quote character. -/
def dquote : Char := Char.ofNat 34

/-- Backslash character. -/
def bslash : Char := Char.ofNat 92

/-- Opening curly brace character. -/
def lbraceC : Char := Char.ofNat 123

/-- Closing curly brace character. -/
def rbraceC : Char := Char.ofNat 125

/-- The JSON-level encoding of one round-trippable character, i.e.
what stands for it in the metadata file after the quote substitution:
backslash, tab, newline and carriage return appear as their escapes
(identical in Python `repr` and in JSON), everything else appears as
itself. -/
def jsonEncChar (c : Char) : List Char :=
  if c = bslash then [bslash, bslash]
  else if c = Char.ofNat 9 then [bslash, 't']
  else if c = Char.ofNat 10 then [bslash, 'n']
  else if c = Char.ofNat 13 then [bslash, 'r']
  else [c]

/-- A character the metadata round trip carries faithfully: a
printable ASCII character other than the two quote characters
(backslash included — `repr` writes it doubled and `json.loads` reads
it back), or tab, newline or carriage return, whose `repr` short
escapes are also JSON escapes.  A single quote is corrupted by the
blanket substitution, a double quote ends the substituted string
early, and every other control character (and delete) is written by
`repr` as a `\xNN` escape that `json.loads` rejects; non-ASCII
characters are left out of the class because `repr` escapes exactly
the non-printable ones, a distinction the embedding does not model. -/
def rtChar (c : Char) : Bool :=
  (32 ≤ c.toNat && c.toNat ≤ 126 && !(c = squote) && !(c = dquote))
    || c = Char.ofNat 9 || c = Char.ofNat 10 || c = Char.ofNat 13

/-- A string of round-trippable characters. -/
def rtStr (s : String) : Bool := s.data.all rtChar

/-- Python `s.endswith(post)`. -/
def pyEndsWith (s post : String) : Bool := post.data.isSuffixOf s.data

/-- Python `s[:-n]` for `n = len(name)`: note that for `n = 0` the
stop index is `-0 = 0`, so the result is the empty string, not `s`. -/
def pyStripRight (s : String) (n : Nat) : String :=
  if n = 0 then "" else String.mk (s.data.take (s.data.length - n))

/-- Python `s.lower()` (over the ASCII answers the prompt compares
against). -/
def pyLower (s : String) : String := String.mk (s.data.map Char.toLower)

/-- A cell of the pandas frame: the logger stores numbers (scalar
columns) and strings (text columns, and image columns whose cells hold
the stored file path, `training_logger.py` line 224). -/
inductive CellValue
  | num (q : ℚ)
  | str (s : String)
  deriving DecidableEq, Repr

/-- The pandas `DataFrame` owned by the logger: a list of column
names, the row index (integer iterations, in insertion order, as
pandas appends new labels at the end), and the populated cells.
Absent cells are null (`None`/NaN). -/
structure DataFrame where
  cols : List String
  idx : List Int
  cells : List ((Int × String) × CellValue)
  deriving DecidableEq, Repr

/-- `pd.DataFrame()` (`training_logger.py` line 71). -/
def DataFrame.empty : DataFrame := ⟨[], [], []⟩

/-- `name in self.data.columns`. -/
def DataFrame.hasCol (df : DataFrame) (c : String) : Bool := df.cols.contains c

/-- `self.data[name] = None`: creates the column with all cells null
(`training_logger.py` line 127). -/
def DataFrame.addCol (df : DataFrame) (c : String) : DataFrame :=
  { df with cols := df.cols ++ [c] }

/-- `len(self.data.index)`. -/
def DataFrame.numRows (df : DataFrame) : Nat := df.idx.length

/-- Value at `(row, column)`, `none` when the cell is null. -/
def DataFrame.getCell (df : DataFrame) (i : Int) (c : String) : Option CellValue :=
  (df.cells.find? (fun e => e.1 = (i, c))).map (·.2)

/-- `self.data.loc[iteration, name] = value`: a new row label is
appended to the index; an existing cell is overwritten in place
(`training_logger.py` line 137). -/
def DataFrame.setCell (df : DataFrame) (i : Int) (c : String) (v : CellValue) : DataFrame :=
  { df with
    idx := if df.idx.contains i then df.idx else df.idx ++ [i]
    cells :=
      if df.cells.any (fun e => e.1 = (i, c)) then
        df.cells.map (fun e => if e.1 = (i, c) then (e.1, v) else e)
      else
        df.cells ++ [((i, c), v)] }

/-- `self.data[name].dropna()` as the (index, value) pairs in index
order (`visualizers.py` line 66). -/
def DataFrame.dropna (df : DataFrame) (c : String) : List (Int × CellValue) :=
  df.idx.filterMap (fun i => (df.getCell i c).map (fun v => (i, v)))

/-- `self.metadata[name]` lookup, `none` when the key is absent
(Python would raise `KeyError`). -/
def dictFind (d : List (String × String)) (k : String) : Option String :=
  (d.find? (fun kv => kv.1 = k)).map (·.2)

/-- Python dict assignment `d[k] = v`: updates the value in place when
the key exists (order preserved), appends otherwise. -/
def dictSet (d : List (String × String)) (k v : String) : List (String × String) :=
  if d.any (fun kv => kv.1 = k) then
    d.map (fun kv => if kv.1 = k then (k, v) else kv)
  else d ++ [(k, v)]

/-- `d.update(e)` for Python dicts (`visualizers.py` line 308). -/
def dictUpdate (d e : List (String × String)) : List (String × String) :=
  e.foldl (fun acc kv => dictSet acc kv.1 kv.2) d

/-- The Python exceptions the modelled code can raise.  Messages are
dropped; only the exception class matters to control flow (the
visualizers catch exactly `AssertionError`). -/
inductive PyErr
  | assertionError
  | keyError
  | valueError
  | typeError
  | jsonDecodeError
  | fileNotFoundError
  | attributeError
  | indexError
  | systemExit
  deriving DecidableEq, Repr

deriving instance DecidableEq for Except

/-- `TrainingLogger.DATATYPES = set({"scalar", "img", "text"})`
(`training_logger.py` line 19). -/
def DATATYPES : List String := ["scalar", "img", "text"]

/-- The mutable state of a `TrainingLogger` instance: the fields set
in `__init__` (`training_logger.py` lines 36-77).  `prefixStr` and
`postfixStr` model `self.prefix` and `self.postfix`; `postfixStr` is
an `Option` because `remove_from_postfix` assigns `None` to it
(line 121). -/
structure LoggerState where
  basename : String
  data : DataFrame
  metadata : List (String × String)
  meta_changed : Bool
  save_freq : Nat
  save_calls : Nat
  prefixStr : String
  postfixStr : Option String
  deriving DecidableEq, Repr

/-- The logger state right after `__init__` creates a fresh (empty)
run directory. -/
def freshLogger (basename : String) (save_freq : Nat) : LoggerState :=
  { basename := basename
    data := DataFrame.empty
    metadata := []
    meta_changed := false
    save_freq := save_freq
    save_calls := 0
    prefixStr := ""
    postfixStr := some "" }

/-- Contents of the run directory: `data.csv` is modelled as the
frame it serializes (the pandas `to_csv`/`read_csv` pair, an external
library, is treated as a faithful round trip with `index_col=0`);
`data.meta` is modelled concretely as its character contents, since
the quote-substitution reload is the repository code itself;
`otherFiles` records the image files written by `add_image`. -/
structure DirContents where
  dataFile : Option DataFrame
  metaFile : Option (List Char)
  otherFiles : List String
  deriving DecidableEq, Repr

/-- A fresh, empty run directory (right after `os.makedirs`). -/
def emptyDir : DirContents := ⟨none, none, []⟩

/-- Lowercase hexadecimal digit, as Python prints inside `\xNN`
escapes. -/
def hexDigit (n : Nat) : Char :=
  if n < 10 then Char.ofNat (48 + n) else Char.ofNat (87 + n)

/-- Python `repr` of one character inside a string literal quoted by
`q`: backslash and the quote character are backslash-escaped, tab,
newline and carriage return take their short escapes, the remaining
ASCII control characters and delete take the `\xNN` form.
Characters at and above `0x80` are modelled as printable and left
as-is, which matches `repr` exactly for printable characters; the
round-trip theorems quantify only over ASCII names, where this
function is exact for every character. -/
def reprEscChar (q c : Char) : List Char :=
  if c = bslash then [bslash, bslash]
  else if c = q then [bslash, q]
  else if c = Char.ofNat 9 then [bslash, 't']
  else if c = Char.ofNat 10 then [bslash, 'n']
  else if c = Char.ofNat 13 then [bslash, 'r']
  else if c.toNat < 32 || c.toNat = 127 then
    [bslash, 'x', hexDigit (c.toNat / 16), hexDigit (c.toNat % 16)]
  else [c]

/-- Python `repr` of a string (`str(self.metadata)` renders each key
and value this way, `training_logger.py` line 98): single-quoted with
single quotes escaped, except that a string containing a single quote
but no double quote is double-quoted; backslashes and control
characters are escaped in either form. -/
def pyReprChars (s : String) : List Char :=
  if s.data.contains squote && !(s.data.contains dquote) then
    dquote :: s.data.flatMap (reprEscChar dquote) ++ [dquote]
  else
    squote :: s.data.flatMap (reprEscChar squote) ++ [squote]

/-- `str(self.metadata)` (`training_logger.py` line 98): the Python
dict literal, entries in insertion order. -/
def serializeMeta (d : List (String × String)) : List Char :=
  lbraceC ::
    (List.intercalate [',', ' ']
      (d.map (fun kv => pyReprChars kv.1 ++ ':' :: ' ' :: pyReprChars kv.2)))
    ++ [rbraceC]

/-- `s.replace(old, new)` for single-character patterns. -/
def charReplace (old new : Char) (cs : List Char) : List Char :=
  cs.map (fun c => if c = old then new else c)

/-- JSON whitespace. -/
def isWs (c : Char) : Bool :=
  c = Char.ofNat 32 || c = Char.ofNat 9 || c = Char.ofNat 10 || c = Char.ofNat 13

/-- Drop leading JSON whitespace. -/
def skipWs : List Char → List Char
  | [] => []
  | c :: cs => if isWs c then skipWs cs else c :: cs

/-- Decode of a single-character JSON string escape (`json.loads`):
quote, backslash, slash, backspace, form feed, newline, carriage
return, tab. -/
def jsonEsc (e : Char) : Option Char :=
  if e = dquote then some dquote
  else if e = bslash then some bslash
  else if e = Char.ofNat 47 then some (Char.ofNat 47)
  else if e = 'b' then some (Char.ofNat 8)
  else if e = 'f' then some (Char.ofNat 12)
  else if e = 'n' then some (Char.ofNat 10)
  else if e = 'r' then some (Char.ofNat 13)
  else if e = 't' then some (Char.ofNat 9)
  else none

/-- Value of one hexadecimal digit, as in a JSON `\uXXXX` escape. -/
def hexVal (c : Char) : Option Nat :=
  if 48 ≤ c.toNat && c.toNat ≤ 57 then some (c.toNat - 48)
  else if 97 ≤ c.toNat && c.toNat ≤ 102 then some (c.toNat - 87)
  else if 65 ≤ c.toNat && c.toNat ≤ 70 then some (c.toNat - 55)
  else none

/-- Combined value of the four hexadecimal digits of a `\uXXXX`
escape. -/
def hex4v (h1 h2 h3 h4 : Char) : Option Nat :=
  match hexVal h1, hexVal h2, hexVal h3, hexVal h4 with
  | some a, some b, some c, some d => some (4096 * a + 256 * b + 16 * c + d)
  | _, _, _, _ => none

/-- Read the body of a JSON string after its opening double quote, up
to the closing double quote, as `json.loads` does in its default
strict mode: the short escapes and `\uXXXX` are decoded, any other
escape is rejected (Python: `Invalid \escape`), and a raw control
character below `0x20` is rejected (`Invalid control character`).  A
`\uXXXX` escape in the surrogate range is rejected, since a lone
surrogate is not a scalar value a Lean `Char` can carry; the logger's
writer never produces one.  Fuelled, spending one unit per decoded
character: every step consumes at least one input character, so the
fuel `jsonPairs` passes (the remaining input length plus one) never
runs out before the string ends. -/
def readStr : Nat → List Char → Option (List Char × List Char)
  | 0, _ => none
  | _ + 1, [] => none
  | fuel + 1, c :: cs =>
    if c = dquote then some ([], cs)
    else if c = bslash then
      match cs with
      | [] => none
      | e :: cs2 =>
        match jsonEsc e with
        | some d =>
          match readStr fuel cs2 with
          | some (s, rest) => some (d :: s, rest)
          | none => none
        | none =>
          if e = 'u' then
            match cs2 with
            | h1 :: h2 :: h3 :: h4 :: cs3 =>
              match hex4v h1 h2 h3 h4 with
              | some n =>
                if n < 55296 || 57343 < n then
                  match readStr fuel cs3 with
                  | some (s, rest) => some (Char.ofNat n :: s, rest)
                  | none => none
                else none
              | none => none
            | _ => none
          else none
    else if c.toNat < 32 then none
    else
      match readStr fuel cs with
      | some (s, rest) => some (c :: s, rest)
      | none => none

/-- Parse the members of a JSON object of string keys and string
values, starting right after the opening brace (or after a comma),
consuming the closing brace.  Fuelled; each member consumes at least
one character, so any fuel of at least the input length suffices. -/
def jsonPairs : Nat → List Char → Option (List (String × String) × List Char)
  | 0, _ => none
  | fuel + 1, cs0 =>
    match skipWs cs0 with
    | [] => none
    | c :: cs =>
      if c = dquote then
        match readStr (cs.length + 1) cs with
        | none => none
        | some (k, cs) =>
          match skipWs cs with
          | [] => none
          | c :: cs =>
            if c = ':' then
              match skipWs cs with
              | [] => none
              | c :: cs =>
                if c = dquote then
                  match readStr (cs.length + 1) cs with
                  | none => none
                  | some (v, cs) =>
                    match skipWs cs with
                    | [] => none
                    | c :: cs =>
                      if c = ',' then
                        match jsonPairs fuel cs with
                        | some (rest, rem) => some ((String.mk k, String.mk v) :: rest, rem)
                        | none => none
                      else if c = rbraceC then
                        some ([(String.mk k, String.mk v)], cs)
                      else none
                else none
            else none
      else none

/-- `json.loads` restricted to the shape the metadata file holds: one
object whose keys and values are strings, with nothing but whitespace
around it.  Returns `none` where `json.loads` raises
`JSONDecodeError`. -/
def jsonLoadsDict (cs : List Char) : Option (List (String × String)) :=
  match skipWs cs with
  | [] => none
  | c :: cs =>
    if c = lbraceC then
      match skipWs cs with
      | [] => none
      | c2 :: cs2 =>
        if c2 = rbraceC then
          if (skipWs cs2).isEmpty then some [] else none
        else
          match jsonPairs (cs.length + 1) (c2 :: cs2) with
          | some (pairs, rem) => if (skipWs rem).isEmpty then some pairs else none
          | none => none
    else none

/-- The metadata reload (`training_logger.py` lines 46-48):
`f.read().replace` of single quotes by double quotes, then
`json.loads`. -/
def loadMeta (cs : List Char) : Option (List (String × String)) :=
  jsonLoadsDict (charReplace squote dquote cs)

/-- `self._get_name(name)` (`training_logger.py` lines 102-104):
`self.prefix + name + self.postfix`.  When `self.postfix` is `None`
the concatenation raises `TypeError`. -/
def get_name (st : LoggerState) (name : String) : Except PyErr String :=
  match st.postfixStr with
  | some p => .ok (st.prefixStr ++ name ++ p)
  | none => .error .typeError

/-- `add_to_prefix` (`training_logger.py` lines 106-107). -/
def prefixAdd (st : LoggerState) (name : String) : LoggerState :=
  { st with prefixStr := st.prefixStr ++ name }

/-- `remove_from_prefix` (`training_logger.py` lines 109-112): raises
`ValueError` unless the current prefix ends with the segment. -/
def prefixRemove (st : LoggerState) (name : String) : Except PyErr Unit × LoggerState :=
  if pyEndsWith st.prefixStr name then
    (.ok (), { st with prefixStr := pyStripRight st.prefixStr name.data.length })
  else (.error .valueError, st)

/-- `add_to_postfix` (`training_logger.py` lines 114-115): with a
`None` postfix the `+` raises `TypeError`. -/
def postfixAdd (st : LoggerState) (name : String) : Except PyErr Unit × LoggerState :=
  match st.postfixStr with
  | some p => (.ok (), { st with postfixStr := some (p ++ name) })
  | none => (.error .typeError, st)

/-- `remove_from_postfix` (`training_logger.py` lines 117-121): after
the `endswith` guard, line 120 strips the segment and line 121 then
unconditionally assigns `self.postfix = None`, so the net effect of a
successful call is a `None` postfix.  A `None` postfix makes the
`endswith` attribute lookup itself raise `AttributeError`. -/
def postfixRemove (st : LoggerState) (name : String) : Except PyErr Unit × LoggerState :=
  match st.postfixStr with
  | none => (.error .attributeError, st)
  | some p =>
    if pyEndsWith p name then
      let st := { st with postfixStr := some (pyStripRight p name.data.length) }
      (.ok (), { st with postfixStr := none })
    else (.error .valueError, st)

/-- `save` (`training_logger.py` lines 85-100): bump the call
counter; once it reaches `save_freq` (or on a forced call) write the
frame to `data.csv`, write `data.meta` only when the metadata changed
since the last write, and reset the counter. -/
def save (st : LoggerState) (fs : DirContents) (force : Bool) :
    LoggerState × DirContents :=
  let st := { st with save_calls := st.save_calls + 1 }
  if force || decide (st.save_calls ≥ st.save_freq) then
    let fs := { fs with dataFile := some st.data }
    let stfs :=
      if st.meta_changed then
        ({ st with meta_changed := false },
         { fs with metaFile := some (serializeMeta st.metadata) })
      else (st, fs)
    ({ stfs.1 with save_calls := 0 }, stfs.2)
  else (st, fs)

/-- `flush` (`training_logger.py` lines 79-83): `self.save(True)`. -/
def flush (st : LoggerState) (fs : DirContents) : LoggerState × DirContents :=
  save st fs true

/-- `__insert_scalar` (`training_logger.py` lines 123-137): resolve
the name, create the column (frame and metadata together) when new,
assert the declared type is `scalar`, then write the cell at the
given or default iteration. -/
def insertScalar (st : LoggerState) (name : String) (value : CellValue)
    (iteration : Option Int) : Except PyErr Unit × LoggerState :=
  match get_name st name with
  | .error e => (.error e, st)
  | .ok name =>
    let st :=
      if st.data.hasCol name then st
      else
        { st with
          data := st.data.addCol name
          metadata := dictSet st.metadata name "scalar"
          meta_changed := true }
    match dictFind st.metadata name with
    | none => (.error .keyError, st)
    | some t =>
      if t = "scalar" then
        let iter := iteration.getD (st.data.numRows : Int)
        (.ok (), { st with data := st.data.setCell iter name value })
      else (.error .assertionError, st)

/-- `__insert_text` (`training_logger.py` lines 139-152): as
`__insert_scalar` with declared type `text`. -/
def insertText (st : LoggerState) (name : String) (value : CellValue)
    (iteration : Option Int) : Except PyErr Unit × LoggerState :=
  match get_name st name with
  | .error e => (.error e, st)
  | .ok name =>
    let st :=
      if st.data.hasCol name then st
      else
        { st with
          data := st.data.addCol name
          metadata := dictSet st.metadata name "text"
          meta_changed := true }
    match dictFind st.metadata name with
    | none => (.error .keyError, st)
    | some t =>
      if t = "text" then
        let iter := iteration.getD (st.data.numRows : Int)
        (.ok (), { st with data := st.data.setCell iter name value })
      else (.error .assertionError, st)

/-- `add_scalar` (`training_logger.py` lines 154-170): insert then
trigger a save attempt.  A raise inside the insert skips the save. -/
def add_scalar (st : LoggerState) (fs : DirContents) (name : String)
    (value : CellValue) (iteration : Option Int) :
    Except PyErr Unit × LoggerState × DirContents :=
  match insertScalar st name value iteration with
  | (.ok _, st) =>
    let stfs := save st fs false
    (.ok (), stfs.1, stfs.2)
  | (.error e, st) => (.error e, st, fs)

/-- `add_text` (`training_logger.py` lines 172-188). -/
def add_text (st : LoggerState) (fs : DirContents) (name : String)
    (value : CellValue) (iteration : Option Int) :
    Except PyErr Unit × LoggerState × DirContents :=
  match insertText st name value iteration with
  | (.ok _, st) =>
    let stfs := save st fs false
    (.ok (), stfs.1, stfs.2)
  | (.error e, st) => (.error e, st, fs)

/-- `add_image` (`training_logger.py` lines 190-225): resolve the
name, create the column with type `img` when new, assert the type,
write the image file at `basename/name-iteration.png` and store that
path in the cell, then trigger a save attempt.  The pixel data and
the float-to-uint8 scaling do not reach the table and are not
modelled; the cell stores the path only. -/
def add_image (st : LoggerState) (fs : DirContents) (name : String)
    (iteration : Option Int) : Except PyErr Unit × LoggerState × DirContents :=
  match get_name st name with
  | .error e => (.error e, st, fs)
  | .ok name =>
    let st :=
      if st.data.hasCol name then st
      else
        { st with
          data := st.data.addCol name
          metadata := dictSet st.metadata name "img"
          meta_changed := true }
    let iter := iteration.getD (st.data.numRows : Int)
    match dictFind st.metadata name with
    | none => (.error .keyError, st, fs)
    | some t =>
      if t = "img" then
        let img_path := st.basename ++ "/" ++ name ++ "-" ++ toString iter ++ ".png"
        let fs := { fs with otherFiles := fs.otherFiles ++ [img_path] }
        let st := { st with data := st.data.setCell iter name (.str img_path) }
        let stfs := save st fs false
        (.ok (), stfs.1, stfs.2)
      else (.error .assertionError, st, fs)

/-- The `for name, val in keyvals.items()` loop of `add_scalars`
(`training_logger.py` lines 251-252); stops at the first raise,
keeping the state at that point. -/
def insertScalarList (st : LoggerState) (iteration : Option Int) :
    List (String × CellValue) → Except PyErr Unit × LoggerState
  | [] => (.ok (), st)
  | (k, v) :: rest =>
    match insertScalar st k v iteration with
    | (.ok _, st) => insertScalarList st iteration rest
    | (.error e, st) => (.error e, st)

/-- `add_scalars` (`training_logger.py` lines 227-255): extend the
prefix and postfix, compute the shared default iteration once, insert
every pair, save, and only then restore the saved prefix/postfix
(line 255) — a raise inside the loop leaves them extended. -/
def add_scalars (st : LoggerState) (fs : DirContents) (pre post : String)
    (iteration : Option Int) (keyvals : List (String × CellValue)) :
    Except PyErr Unit × LoggerState × DirContents :=
  let old_pre := st.prefixStr
  let old_post := st.postfixStr
  let st := { st with prefixStr := st.prefixStr ++ pre }
  match st.postfixStr with
  | none => (.error .typeError, st, fs)
  | some p =>
    let st := { st with postfixStr := some (p ++ post) }
    let iter : Option Int := some (iteration.getD (st.data.numRows : Int))
    match insertScalarList st iter keyvals with
    | (.error e, st) => (.error e, st, fs)
    | (.ok _, st) =>
      let stfs := save st fs false
      (.ok (), { stfs.1 with prefixStr := old_pre, postfixStr := old_post }, stfs.2)

/-- The affirmative answers accepted by the confirmation prompts
(`training_logger.py` lines 43 and 65). -/
def affirmative (answer : String) : Bool :=
  ["y", "yes", "j", "ja"].contains (pyLower answer)

/-- `set(self.metadata.keys()) == set(self.data.columns)`
(`training_logger.py` lines 50-52). -/
def setEqB (a b : List String) : Bool :=
  a.all (fun x => b.contains x) && b.all (fun x => a.contains x)

/-- The `except FileNotFoundError` handler of `__init__`
(`training_logger.py` lines 57-72): `os.makedirs` raises
`FileExistsError` when the directory already exists; then either the
caller passed `overwrite=True` or the operator confirms, in which
case `shutil.rmtree` deletes the whole tree and `makedirs` recreates
it empty, otherwise `sys.exit(-1)`.  Either way the logger starts
with an empty frame and empty metadata. -/
def initExceptHandler (fs : Option DirContents) (overwrite : Bool) (answer : String)
    (save_freq : Nat) (basename : String) :
    Except PyErr (LoggerState × DirContents) :=
  match fs with
  | some _ =>
    let ow := if overwrite then true else affirmative answer
    if ow then .ok (freshLogger basename save_freq, emptyDir)
    else .error .systemExit
  | none => .ok (freshLogger basename save_freq, emptyDir)

/-- `TrainingLogger.__init__` (`training_logger.py` lines 21-77).
`fs` is the state of the directory at `basename` (`none` when it does
not exist); `answer` is what `input()` would return if prompted.  The
`try` body reads `data.csv` (a missing directory or file raises
`FileNotFoundError`), prompts unless `overwrite`, reads and parses
`data.meta` (a missing file again lands in the handler; a parse
failure, `JSONDecodeError`, propagates), then validates the metadata
against the frame; the handler (above) covers the
missing-file path. -/
def initTrainingLogger (fs : Option DirContents) (overwrite : Bool) (answer : String)
    (save_freq : Nat) (basename : String) :
    Except PyErr (LoggerState × DirContents) :=
  match fs with
  | none => initExceptHandler none overwrite answer save_freq basename
  | some dir =>
    match dir.dataFile with
    | none => initExceptHandler (some dir) overwrite answer save_freq basename
    | some df =>
      if !overwrite && !(affirmative answer) then .error .systemExit
      else
        match dir.metaFile with
        | none => initExceptHandler (some dir) overwrite answer save_freq basename
        | some metaChars =>
          match loadMeta metaChars with
          | none => .error .jsonDecodeError
          | some md =>
            if setEqB (md.map Prod.fst) df.cols then
              if (md.map Prod.snd).all (fun v => DATATYPES.contains v) then
                .ok ({ basename := basename
                       data := df
                       metadata := md
                       meta_changed := false
                       save_freq := save_freq
                       save_calls := 0
                       prefixStr := ""
                       postfixStr := some "" }, dir)
              else .error .assertionError
            else .error .assertionError

/-- One public `add_*` call, for stating properties over call
sequences. -/
inductive AddOp
  | scalar (name : String) (value : CellValue) (iteration : Option Int)
  | text (name : String) (value : CellValue) (iteration : Option Int)
  | image (name : String) (iteration : Option Int)
  deriving DecidableEq, Repr

/-- The caller-given name of an `add_*` call. -/
def AddOp.opName : AddOp → String
  | .scalar n _ _ => n
  | .text n _ _ => n
  | .image n _ => n

/-- Apply one `add_*` call. -/
def applyAddOp (st : LoggerState) (fs : DirContents) :
    AddOp → Except PyErr Unit × LoggerState × DirContents
  | .scalar n v i => add_scalar st fs n v i
  | .text n v i => add_text st fs n v i
  | .image n i => add_image st fs n i

/-- Run a sequence of `add_*` calls, stopping at the first raise (a
raise aborts the client program before any further call). -/
def runAddOps (st : LoggerState) (fs : DirContents) :
    List AddOp → Except PyErr (LoggerState × DirContents)
  | [] => .ok (st, fs)
  | op :: rest =>
    match applyAddOp st fs op with
    | (.ok _, st, fs) => runAddOps st fs rest
    | (.error e, _, _) => .error e

/-- A sequence of `add_scalar` calls with default iterations, as used
by the buffered-save property. -/
def scalarOps (pairs : List (String × CellValue)) : List AddOp :=
  pairs.map (fun kv => .scalar kv.1 kv.2 none)

/-! ### Visualizers (`visualizers.py`) -/

/-- `np.arange(a, b)` over integers. -/
def arange (a b : Int) : List Int :=
  (List.range (b - a).toNat).map (fun (i : Nat) => a + (i : Int))

/-- Python slice-bound normalization for `a[start:stop]`: a negative
bound counts from the end, then both are clamped to `[0, len]` and an
empty slice results when the stop does not exceed the start. -/
def sliceBounds (len : Nat) (start stop : Int) : Nat × Nat :=
  let norm : Int → Int := fun i => if i < 0 then i + len else i
  let clamp : Int → Nat := fun i => (max 0 (min (norm i) len)).toNat
  let s := clamp start
  let t := clamp stop
  (s, max s t)

/-- NumPy slice assignment `xs[start:stop] = vals` with an array
right-hand side: the value array must match the slice length or be a
length-one array (broadcast); otherwise `ValueError`. -/
def sliceAssignArr (xs : List ℚ) (start stop : Int) (vals : List ℚ) :
    Option (List ℚ) :=
  let st := sliceBounds xs.length start stop
  let m := st.2 - st.1
  if vals.length = m then
    some (xs.take st.1 ++ vals ++ xs.drop st.2)
  else if vals.length = 1 then
    some (xs.take st.1 ++ List.replicate m (vals.headD 0) ++ xs.drop st.2)
  else none

/-- NumPy slice assignment `xs[start:stop] = v` with a scalar
right-hand side (always broadcasts). -/
def sliceFill (xs : List ℚ) (start stop : Int) (v : ℚ) : List ℚ :=
  let st := sliceBounds xs.length start stop
  xs.take st.1 ++ List.replicate (st.2 - st.1) v ++ xs.drop st.2

/-- `np.convolve(a, v, mode="valid")` for `v` no longer than `a`:
output entry `i` is the kernel-flipped dot product starting at `i`. -/
def convolveValidCore (a v : List ℚ) : List ℚ :=
  (List.range (a.length + 1 - v.length)).map (fun i =>
    ((List.range v.length).map
      (fun j => a.getD (i + j) 0 * v.getD (v.length - 1 - j) 0)).sum)

/-- `np.convolve(a, v, mode="valid")`: NumPy swaps the arguments when
the second is longer. -/
def convolveValid (a v : List ℚ) : List ℚ :=
  if v.length ≤ a.length then convolveValidCore a v else convolveValidCore v a

/-- The normalized Gaussian window of `smooth_data`
(`visualizers.py` lines 38-40): `np.arange(-(w//2), w//2+1)` mapped
through the Gaussian density and divided by its sum.  The density
`x` maps `t` to `1/(sigma*sqrt(2*pi)) * exp(-(t/sigma)^2/2)`, a
transcendental function with no exact rational value, so it is
abstracted as the parameter `g : Int → ℚ`; every property proved is
proved for all `g`, hence for the Gaussian at every `sigma`. -/
def gaussWindow (g : Int → ℚ) (window_size : Nat) : List ℚ :=
  let window0 := arange (-((window_size / 2 : Nat) : Int)) (((window_size / 2 : Nat) : Int) + 1)
  let window1 := window0.map g
  window1.map (fun x => x / window1.sum)

/-- `LogVisualizer.smooth_data` (`visualizers.py` lines 37-47): build
the normalized window, allocate `np.zeros(n + w - 1)`, assign the
data into `to_conv[w//2 : -(w//2)]` (NumPy raises `ValueError` when
the lengths cannot broadcast — note `-(w//2)` is `0` when `w = 1`, an
empty slice), fill `to_conv[:w//2]` with `data[0]` and
`to_conv[-w//2:]` with `data[-1]` (`-w//2` is Python floor division
of `-w`, hence `-(w//2)-1` for odd `w`), and convolve in valid mode.
`data[0]` on an empty array raises `IndexError`. -/
def smooth_data (g : Int → ℚ) (data : List ℚ) (window_size : Nat) :
    Except PyErr (List ℚ) :=
  let window := gaussWindow g window_size
  let to_conv : List ℚ := List.replicate (data.length + window_size - 1) 0
  match sliceAssignArr to_conv ((window_size / 2 : Nat) : Int)
      (-((window_size / 2 : Nat) : Int)) data with
  | none => .error .valueError
  | some to_conv =>
    match data.head?, data.getLast? with
    | some d0, some dl =>
      let to_conv := sliceFill to_conv 0 ((window_size / 2 : Nat) : Int) d0
      let to_conv := sliceFill to_conv (Int.fdiv (-(window_size : Int)) 2)
        (to_conv.length : Int) dl
      .ok (convolveValid to_conv window)
    | _, _ => .error .indexError

/-- A `LogVisualizer` object: `__init__` (`visualizers.py` lines
14-22) sets exactly two attributes, `self.logger` and `self.prefix`
(the label prefix, `labelPre` here).  No other attribute is ever
assigned on the instance. -/
structure LogVisualizer where
  logger : LoggerState
  labelPre : String
  deriving DecidableEq, Repr

/-- `LogVisualizer.__init__`: `self.logger = TrainingLogger(path, True)`
— always `overwrite=True`, default `save_freq=50`. -/
def initLogVisualizer (fs : Option DirContents) (basename labelPre : String) :
    Except PyErr (LogVisualizer × DirContents) :=
  match initTrainingLogger fs true "" 50 basename with
  | .ok (st, fs) => .ok (⟨st, labelPre⟩, fs)
  | .error e => .error e

/-- One rendered line: its label and its (x, y) points. -/
structure Series where
  label : String
  points : List (Int × CellValue)
  deriving DecidableEq, Repr

/-- Collect the values of a plotted series as numbers; a non-numeric
cell in the array makes the smoothing arithmetic raise. -/
def cellNums : List CellValue → Option (List ℚ)
  | [] => some []
  | .num q :: rest => (cellNums rest).map (fun l => q :: l)
  | .str _ :: _ => none

/-- `LogVisualizer.show_graph` (`visualizers.py` lines 49-85) reduced
to the series it renders: assert the column exists (`AssertionError`
otherwise), assert its declared type is `scalar` (a column missing
from the metadata map would raise `KeyError`), take the non-null
cells in index order, smooth them when `smooth_window > 0`, and plot
one line labelled with the visualizer label prefix.  Axes handling,
limits and legends place the line but do not change it and are not
modelled. -/
def show_graph_series (g : Int → ℚ) (smooth_window : Nat)
    (viz : LogVisualizer) (name : String) : Except PyErr Series :=
  if viz.logger.data.hasCol name then
    match dictFind viz.logger.metadata name with
    | none => .error .keyError
    | some t =>
      if t = "scalar" then
        let pts := viz.logger.data.dropna name
        if smooth_window > 0 then
          match cellNums (pts.map Prod.snd) with
          | none => .error .typeError
          | some ys =>
            match smooth_data g ys smooth_window with
            | .error e => .error e
            | .ok ys2 =>
              .ok ⟨viz.labelPre ++ name, (pts.map Prod.fst).zip (ys2.map CellValue.num)⟩
        else .ok ⟨viz.labelPre ++ name, pts⟩
      else .error .assertionError
  else .error .assertionError

/-- The inner `for viz in self.visualizers` loop of
`MultiLogVisualizer.show_scalars` (`visualizers.py` lines 287-292):
`try: ... except AssertionError: pass` — exactly assertion failures
are swallowed, anything else propagates.  Returns the series
rendered, in order. -/
def renderRow (g : Int → ℚ) (smooth_window : Nat)
    (vizs : List LogVisualizer) (name : String) : Except PyErr (List Series)
  := match vizs with
  | [] => .ok []
  | viz :: rest =>
    match show_graph_series g smooth_window viz name with
    | .ok s => (renderRow g smooth_window rest name).map (fun l => s :: l)
    | .error .assertionError => renderRow g smooth_window rest name
    | .error e => .error e

/-- `MultiLogVisualizer.show_scalars` (`visualizers.py` lines
273-294), as the sequence of series it renders across all axes (the
`subplots` flag moves series between axes but does not change which
are rendered). -/
def multiShowScalars (g : Int → ℚ) (smooth_window : Nat)
    (vizs : List LogVisualizer) : List String → Except PyErr (List Series)
  | [] => .ok []
  | name :: rest =>
    match renderRow g smooth_window vizs name with
    | .ok l =>
      match multiShowScalars g smooth_window vizs rest with
      | .ok l2 => .ok (l ++ l2)
      | .error e => .error e
    | .error e => .error e

/-- Python attribute lookup `viz.metadata` on a `LogVisualizer`
instance: `__init__` assigns only `self.logger` and `self.prefix`
(`visualizers.py` lines 21-22) and no method ever assigns
`self.metadata`, so the lookup always fails and raises
`AttributeError` (the intended expression was
`viz.logger.metadata`). -/
def LogVisualizer.attr_metadata (_viz : LogVisualizer) :
    Option (List (String × String)) := none

/-- The `md.update(viz.metadata)` loop of
`MultiLogVisualizer.show_all_scalars` (`visualizers.py` lines
307-308), stopping at the first failing attribute lookup. -/
def attrUpdateFold (md : List (String × String)) :
    List LogVisualizer → Except PyErr (List (String × String))
  | [] => .ok md
  | viz :: rest =>
    match viz.attr_metadata with
    | none => .error .attributeError
    | some m => attrUpdateFold (dictUpdate md m) rest

/-- The `for k, v in md.items()` loop of `show_all_scalars`
(`visualizers.py` lines 309-315): render every scalar-typed entry
across all visualizers, swallowing assertion failures per pair. -/
def renderAll (g : Int → ℚ) (smooth_window : Nat)
    (vizs : List LogVisualizer) : List (String × String) → Except PyErr (List Series)
  | [] => .ok []
  | (k, v) :: rest =>
    if v = "scalar" then
      match renderRow g smooth_window vizs k with
      | .ok l => (renderAll g smooth_window vizs rest).map (fun l2 => l ++ l2)
      | .error e => .error e
    else renderAll g smooth_window vizs rest

/-- `MultiLogVisualizer.show_all_scalars` (`visualizers.py` lines
296-318): `md = self.visualizers[0].metadata` (an `IndexError` on an
empty list, an `AttributeError` otherwise — see
`LogVisualizer.attr_metadata`), then the update fold, then the
render loop. -/
def multiShowAllScalars (g : Int → ℚ) (smooth_window : Nat)
    (vizs : List LogVisualizer) : Except PyErr (List Series) :=
  match vizs with
  | [] => .error .indexError
  | viz0 :: rest =>
    match viz0.attr_metadata with
    | none => .error .attributeError
    | some md0 =>
      match attrUpdateFold md0 rest with
      | .error e => .error e
      | .ok md => renderAll g smooth_window vizs md

/-! ### Spec-side definitions for refinement comparison -/

/-- Modelled from the spec (section 4.2, smoothing algorithm): "Pad
the input by replicating the first value on the left and the last
value on the right by `w // 2` samples each (edge-replication
padding)". -/
def specEdgePad (data : List ℚ) (window_size : Nat) : List ℚ :=
  List.replicate (window_size / 2) (data.headD 0) ++ data ++
    List.replicate (window_size / 2) (data.getLastD 0)

/-! ### Invariants used by the claims -/

/-- The data/metadata invariant of the spec: the key set of the
metadata map equals the column set of the table (the condition
`__init__` asserts on load, `training_logger.py` lines 50-52). -/
def InvB (st : LoggerState) : Bool :=
  setEqB (st.metadata.map Prod.fst) st.data.cols

/-- State invariant carried through runs of `add_*` calls on a fresh
logger for the round-trip argument: the spec invariant, well-formed
metadata with round-trippable keys, untouched prefix/postfix,
agreement between the `meta_changed` flag and the on-disk metadata
file, and emptiness of the table while no column exists. -/
def GoodB (st : LoggerState) (fs : DirContents) : Bool :=
  InvB st
    && st.metadata.all (fun kv => DATATYPES.contains kv.2)
    && st.metadata.all (fun kv => rtStr kv.1)
    && (st.prefixStr == "")
    && (st.postfixStr == some "")
    && (st.meta_changed || (fs.metaFile == some (serializeMeta st.metadata))
        || (st.metadata.isEmpty && (fs.metaFile == none)))
    && (!st.metadata.isEmpty || (st.data == DataFrame.empty))

/-- One metadata entry after the single-to-double quote substitution:
`"key": "value"`, each character in its JSON-level encoding. -/
def encKV (kv : String × String) : List Char :=
  dquote :: kv.1.data.flatMap jsonEncChar ++ [dquote]
    ++ ':' :: ' ' :: (dquote :: kv.2.data.flatMap jsonEncChar ++ [dquote])

/-- The substituted serialization of the metadata entries after the
opening brace, closing brace included. -/
def encPairsTail : List (String × String) → List Char
  | [] => [rbraceC]
  | [kv] => encKV kv ++ [rbraceC]
  | kv :: rest => encKV kv ++ ',' :: ' ' :: encPairsTail rest

/-! ### C4: smoothing -/

/-- Length of `np.arange(a, b)`. -/
theorem arange_length (a b : Int) : (arange a b).length = (b - a).toNat := by
  unfold arange
  rw [List.length_map, List.length_range]

/-- For an odd window the Gaussian window has length exactly
`window_size`. -/
theorem gaussWindow_length (g : Int → ℚ) (w : Nat) (hodd : w % 2 = 1) :
    (gaussWindow g w).length = w := by
  simp only [gaussWindow, List.length_map, arange_length]
  omega

/-- Length of one valid-mode convolution pass. -/
theorem convolveValidCore_length (a v : List ℚ) :
    (convolveValidCore a v).length = a.length + 1 - v.length := by
  simp [convolveValidCore]

/-- Length of the spec-side padded series. -/
theorem specEdgePad_length (data : List ℚ) (w : Nat) :
    (specEdgePad data w).length = data.length + 2 * (w / 2) := by
  simp [specEdgePad]; omega

/-- C4 counterexample.  The claim quantifies over every odd window
`1 ≤ w ≤ n`, but at `w = 1` the assignment
`to_conv[window_size // 2:-(window_size // 2)] = data`
(`visualizers.py` line 43) targets the empty slice `[0:0]` (Python
`-0` is `0`), which cannot broadcast a series of length 2:
`smooth_data` raises `ValueError` instead of returning a
length-preserving smoothed series. -/
theorem C4_counterexample :
    smooth_data (fun _ => 1) [1, 2] 1 = .error .valueError := by
  rfl

/-- Reduction of `smooth_data` when the middle slice assignment
broadcasts and the series is non-empty. -/
theorem smooth_data_some (g : Int → ℚ) (data : List ℚ) (w : Nat)
    (mid : List ℚ) (d0 dl : ℚ)
    (ha : sliceAssignArr (List.replicate (data.length + w - 1) 0)
        ((w / 2 : Nat) : Int) (-((w / 2 : Nat) : Int)) data = some mid)
    (h0 : data.head? = some d0) (hl : data.getLast? = some dl) :
    smooth_data g data w
      = .ok (convolveValid
          (sliceFill (sliceFill mid 0 ((w / 2 : Nat) : Int) d0)
            (Int.fdiv (-(w : Int)) 2)
            ((sliceFill mid 0 ((w / 2 : Nat) : Int) d0).length : Int) dl)
          (gaussWindow g w)) := by
  simp only [smooth_data, ha, h0, hl]

/-- `smooth_data` for an odd window of size at least 3: the code's
padded buffer is exactly the spec's edge-replication padding, and the
result is its valid-mode convolution with the normalized window. -/
theorem smooth_data_eq_spec_big (g : Int → ℚ) (data : List ℚ) (w : Nat)
    (hne : data ≠ []) (hodd : w % 2 = 1) (h3 : 3 ≤ w) :
    smooth_data g data w
      = .ok (convolveValid (specEdgePad data w) (gaussWindow g w)) := by
  obtain ⟨d0, hd0⟩ : ∃ d0, data.head? = some d0 := by
    cases data with
    | nil => exact absurd rfl hne
    | cons a l => exact ⟨a, rfl⟩
  obtain ⟨dl, hdl⟩ : ∃ dl, data.getLast? = some dl := by
    cases data with
    | nil => exact absurd rfl hne
    | cons a l => exact ⟨(a :: l).getLast (by simp), List.getLast?_eq_getLast _ _⟩
  have hn : 1 ≤ data.length := List.length_pos.mpr hne
  set n := data.length with hnn
  set h := w / 2 with hh
  have hw2 : w = 2 * h + 1 := by omega
  have h1 : 1 ≤ h := by omega
  have hsb1 : sliceBounds (n + w - 1) (h : Int) (-(h : Int)) = (h, n + h) := by
    simp only [sliceBounds, Prod.mk.injEq]
    constructor <;> (split_ifs <;> omega)
  have hassign :
      sliceAssignArr (List.replicate (n + w - 1) 0) (h : Int) (-(h : Int)) data
        = some (List.replicate h 0 ++ data ++ List.replicate h 0) := by
    simp only [sliceAssignArr, hsb1, List.length_replicate]
    have hm : n + h - h = n := by omega
    rw [hm, if_pos hnn.symm]
    congr 1
    rw [List.take_replicate, List.drop_replicate]
    have : min h (n + w - 1) = h := by omega
    rw [this]
    have : n + w - 1 - (n + h) = h := by omega
    rw [this, List.append_assoc]
  have hfill1 :
      sliceFill (List.replicate h 0 ++ data ++ List.replicate h 0) 0 (h : Int) d0
        = List.replicate h d0 ++ data ++ List.replicate h 0 := by
    have hlen : (List.replicate h 0 ++ data ++ List.replicate h 0 : List ℚ).length
        = n + 2 * h := by simp; omega
    have hsb : sliceBounds (n + 2 * h) 0 (h : Int) = (0, h) := by
      simp only [sliceBounds, Prod.mk.injEq]
      constructor <;> (split_ifs <;> omega)
    simp only [sliceFill, hlen, hsb, List.take_zero, Nat.sub_zero, List.nil_append]
    rw [List.append_assoc, List.drop_append_eq_append_drop, List.drop_replicate,
      List.length_replicate, Nat.sub_self, List.drop_zero, List.append_assoc]
    simp
  have hfdiv : Int.fdiv (-(w : Int)) 2 = -((h : Int) + 1) := by
    rw [Int.fdiv_eq_ediv _ (by norm_num)]
    omega
  have hfill2 :
      sliceFill (List.replicate h d0 ++ data ++ List.replicate h 0)
          (-((h : Int) + 1))
          ((List.replicate h d0 ++ data ++ List.replicate h 0 : List ℚ).length : Int) dl
        = List.replicate h d0 ++ data.dropLast ++ List.replicate (h + 1) dl := by
    have hlen : (List.replicate h d0 ++ data ++ List.replicate h 0 : List ℚ).length
        = n + 2 * h := by simp; omega
    have hsb : sliceBounds (n + 2 * h) (-((h : Int) + 1)) ((n + 2 * h : Nat) : Int)
        = (n + h - 1, n + 2 * h) := by
      simp only [sliceBounds, Prod.mk.injEq]
      constructor <;> (split_ifs <;> omega)
    rw [hlen]
    simp only [sliceFill, hlen, hsb]
    rw [List.drop_eq_nil_of_le (by simp; omega), List.append_nil]
    rw [List.append_assoc, List.take_append_eq_append_take, List.take_replicate,
      List.length_replicate]
    have : min (n + h - 1) h = h := by omega
    rw [this]
    have : n + h - 1 - h = n - 1 := by omega
    rw [this, List.take_append_eq_append_take]
    have : n - 1 - data.length = 0 := by omega
    rw [this, List.take_zero, List.append_nil, ← List.dropLast_eq_take]
    have : n + 2 * h - (n + h - 1) = h + 1 := by omega
    rw [this, List.append_assoc]
  have hpad : List.replicate h d0 ++ data.dropLast ++ List.replicate (h + 1) dl
      = specEdgePad data w := by
    have h0 : data.headD 0 = d0 := by
      rw [List.headD_eq_head?_getD, hd0]; rfl
    have hl : data.getLastD 0 = dl := by
      rw [List.getLastD_eq_getLast?, hdl]; rfl
    simp only [specEdgePad, ← hh, h0, hl]
    rw [List.replicate_succ, List.append_assoc, ← List.singleton_append,
      ← List.append_assoc data.dropLast, List.dropLast_append_getLast? dl hdl,
      List.append_assoc]
  rw [smooth_data_some g data w _ d0 dl hassign hd0 hdl, hfill1, hfdiv, hfill2, hpad]

/-- C4, amended.  The claim holds once `w = 1` is excluded for series
longer than one point (where the code raises, see
`C4_counterexample`): for every series of length at least 1, every
odd `w` between 1 and the series length with `w = 1` only allowed
when the series has a single point, and every kernel function (hence
every `sigma > 0`), `smooth_data` returns exactly the valid-mode
convolution of the spec's edge-replicated padding with the
normalized length-`w` window, and the output length equals the input
length. -/
theorem C4_smooth_amended (g : Int → ℚ) (data : List ℚ) (w : Nat)
    (hne : data ≠ []) (hodd : w % 2 = 1) (hwn : w ≤ data.length)
    (h1 : w = 1 → data.length = 1) :
    smooth_data g data w
        = .ok (convolveValid (specEdgePad data w) (gaussWindow g w)) ∧
      (convolveValid (specEdgePad data w) (gaussWindow g w)).length = data.length ∧
      (gaussWindow g w).length = w := by
  have hn : 1 ≤ data.length := by
    cases data with
    | nil => exact absurd rfl hne
    | cons a l => simp
  have hlen : (convolveValid (specEdgePad data w) (gaussWindow g w)).length
      = data.length := by
    have hwl := gaussWindow_length g w hodd
    have hpl := specEdgePad_length data w
    have hle : (gaussWindow g w).length ≤ (specEdgePad data w).length := by
      rw [hwl, hpl]; omega
    rw [convolveValid, if_pos hle, convolveValidCore_length, hwl, hpl]
    omega
  refine ⟨?_, hlen, gaussWindow_length g w hodd⟩
  by_cases hw1 : w = 1
  · subst hw1
    obtain ⟨d, rfl⟩ : ∃ d, data = [d] := by
      cases data with
      | nil => exact absurd rfl hne
      | cons a l =>
        cases l with
        | nil => exact ⟨a, rfl⟩
        | cons b m => simp at h1
    have hmid : sliceAssignArr (List.replicate ([d].length + 1 - 1) 0)
        ((1 / 2 : Nat) : Int) (-((1 / 2 : Nat) : Int)) [d] = some [0] := by
      simp [sliceAssignArr, sliceBounds]
    have e1 : sliceFill [0] 0 ((1 / 2 : Nat) : Int) d = [0] := by
      simp [sliceFill, sliceBounds]
    rw [smooth_data_some g [d] 1 [0] d d hmid rfl rfl, e1]
    have e2 : sliceFill [0] (Int.fdiv (-((1 : Nat) : Int)) 2)
        ((([0] : List ℚ)).length : Int) d = [d] := by
      have hfd : Int.fdiv (-((1 : Nat) : Int)) 2 = -1 := by decide
      rw [hfd]
      simp [sliceFill, sliceBounds]
    rw [e2]
    have e3 : specEdgePad [d] 1 = [d] := by simp [specEdgePad]
    rw [e3]
  · exact smooth_data_eq_spec_big g data w hne hodd (by omega)

/-- Witness for C4 at a concrete series and window. -/
theorem C4_smooth_amended_witness :
    ([ (1 : ℚ), 2, 4] ≠ []) ∧
      smooth_data (fun _ => 1) [1, 2, 4] 3
          = .ok (convolveValid (specEdgePad [1, 2, 4] 3) (gaussWindow (fun _ => 1) 3)) ∧
      (convolveValid (specEdgePad [1, 2, 4] 3) (gaussWindow (fun _ => 1) 3)).length = 3 := by
  have h := C4_smooth_amended (fun _ => 1) [1, 2, 4] 3 (by simp) (by decide)
    (by decide) (by decide)
  exact ⟨by simp, h.1, h.2.1⟩

/-! ### C7: postfix push/pop -/

/-- C7.  The claim states that `add_to_postfix(s)` followed by
`remove_from_postfix(s)` restores the postfix and that a later
`add_*` call resolves names as before the pair.  The spec (and the
symmetric prefix code) is clearly the intent, but
`remove_from_postfix` ends with `self.postfix = None`
(`training_logger.py` line 121): on the failing input — push `"/a"`
then pop `"/a"` on a fresh logger — the pop reports success yet
leaves the postfix `None` instead of `""`, and the next `add_scalar`
raises `TypeError` instead of inserting column `"x"`.  (The
not-a-suffix guard itself behaves as claimed: popping `"b"` fails
with `ValueError` and mutates nothing.) -/
theorem C7_postfix_pop_bug :
    (postfixRemove (postfixAdd (freshLogger "d" 50) "/a").2 "/a").1 = .ok () ∧
    (postfixRemove (postfixAdd (freshLogger "d" 50) "/a").2 "/a").2.postfixStr = none ∧
    (add_scalar (postfixRemove (postfixAdd (freshLogger "d" 50) "/a").2 "/a").2
        emptyDir "x" (.num 1) none).1 = .error .typeError ∧
    (add_scalar (postfixRemove (postfixAdd (freshLogger "d" 50) "/a").2 "/a").2
        emptyDir "x" (.num 1) none).2.1
      = (postfixRemove (postfixAdd (freshLogger "d" 50) "/a").2 "/a").2 ∧
    postfixRemove (freshLogger "d" 50) "b" = (.error .valueError, freshLogger "d" 50) := by
  refine ⟨by decide, by decide, by decide, by decide, by decide⟩

/-! ### C9: show_all_scalars -/

/-- C9.  The claim says `show_all_scalars` succeeds for every
collection of runs; in the code its very first statement
`md = self.visualizers[0].metadata` (`visualizers.py` line 306) looks
up an attribute that `LogVisualizer.__init__` never sets (only
`self.logger` and `self.prefix` exist; the working methods use
`self.logger.metadata`), so every call on a non-empty collection
raises `AttributeError` before anything is rendered. -/
theorem C9_show_all_scalars_raises (g : Int → ℚ) (smooth_window : Nat)
    (vizs : List LogVisualizer) (h : vizs ≠ []) :
    multiShowAllScalars g smooth_window vizs = .error .attributeError := by
  cases vizs with
  | nil => exact absurd rfl h
  | cons v rest => rfl

/-- Witness for C9 at a concrete one-run collection. -/
theorem C9_show_all_scalars_raises_witness :
    ([⟨freshLogger "d" 50, "r/"⟩] : List LogVisualizer) ≠ [] ∧
    multiShowAllScalars (fun _ => 1) 0 [⟨freshLogger "d" 50, "r/"⟩]
      = .error .attributeError :=
  ⟨by simp, C9_show_all_scalars_raises (fun _ => 1) 0 [⟨freshLogger "d" 50, "r/"⟩] (by simp)⟩

/-! ### C10: overwrite=True on a directory without data.csv -/

/-- C10.  For any existing directory with no `data.csv`,
`TrainingLogger(path, overwrite=True)` falls into the
`except FileNotFoundError` handler, where `os.makedirs` raises
`FileExistsError` and, `overwrite` being true, `shutil.rmtree`
deletes the whole tree and recreates it empty
(`training_logger.py` lines 57-72); `LogVisualizer.__init__` always
passes `overwrite=True` (`visualizers.py` line 21), so pointing a
visualizer at such a directory destroys its contents. -/
theorem C10_overwrite_clears_directory (dir : DirContents)
    (h : dir.dataFile = none) (answer basename labelPre : String) (save_freq : Nat) :
    initTrainingLogger (some dir) true answer save_freq basename
      = .ok (freshLogger basename save_freq, emptyDir) ∧
    initLogVisualizer (some dir) basename labelPre
      = .ok (⟨freshLogger basename 50, labelPre⟩, emptyDir) := by
  cases dir with
  | mk dataFile metaFile otherFiles =>
    cases h
    exact ⟨rfl, rfl⟩

/-- Witness for C10: a directory holding a metadata file and an image
file, both destroyed. -/
theorem C10_overwrite_clears_directory_witness :
    (DirContents.mk none (some [rbraceC]) ["img-0.png"]).dataFile = none ∧
    initTrainingLogger (some ⟨none, some [rbraceC], ["img-0.png"]⟩) true "" 50 "run"
      = .ok (freshLogger "run" 50, emptyDir) :=
  ⟨rfl, (C10_overwrite_clears_directory ⟨none, some [rbraceC], ["img-0.png"]⟩ rfl "" "run" "" 50).1⟩

/-! ### C2: type mismatch on write -/

/-- C2.  Writing a text value into a column whose declared type is
`scalar` (and symmetrically a scalar value into a `text` or `img`
column) fails with the type-mismatch `AssertionError` of
`__insert_text`/`__insert_scalar` (`training_logger.py` lines
131-133 and 146-148), and the failed call returns with the logger
state and the directory exactly as they were: the assert fires
before the cell write, the column-creation branch is not taken for
an existing column, and the raise skips the `save()` call. -/
theorem C2_type_mismatch_preserves_state
    (st : LoggerState) (fs : DirContents) (name rname : String) (v : CellValue)
    (it : Option Int) (hn : get_name st name = .ok rname)
    (hcol : st.data.hasCol rname = true) :
    (dictFind st.metadata rname = some "scalar" →
      add_text st fs name v it = (.error .assertionError, st, fs)) ∧
    (∀ t, dictFind st.metadata rname = some t → t ≠ "scalar" →
      add_scalar st fs name v it = (.error .assertionError, st, fs)) := by
  constructor
  · intro h
    simp only [add_text, insertText, hn, hcol, if_true, h]
    rfl
  · intro t ht hne
    simp only [add_scalar, insertScalar, hn, hcol, if_true, ht, if_neg hne]

/-- Witness for C2: after `add_scalar("x", 1)` on a fresh logger,
`add_text("x", "a")` fails and changes nothing. -/
theorem C2_type_mismatch_preserves_state_witness :
    add_text ((add_scalar (freshLogger "d" 50) emptyDir "x" (.num 1) none).2.1)
        ((add_scalar (freshLogger "d" 50) emptyDir "x" (.num 1) none).2.2)
        "x" (.str "a") none
      = (.error .assertionError,
         (add_scalar (freshLogger "d" 50) emptyDir "x" (.num 1) none).2.1,
         (add_scalar (freshLogger "d" 50) emptyDir "x" (.num 1) none).2.2) :=
  (C2_type_mismatch_preserves_state _ _ "x" "x" (.str "a") none
    (by decide) (by decide)).1 (by decide)

/-! ### C6: add_scalars prefix/postfix restore -/

/-- `__insert_scalar` never touches the prefix or postfix fields,
the save bookkeeping fields, or the basename. -/
theorem insertScalar_frame (st : LoggerState) (n : String) (v : CellValue)
    (i : Option Int) :
    (insertScalar st n v i).2.prefixStr = st.prefixStr ∧
      (insertScalar st n v i).2.postfixStr = st.postfixStr ∧
      (insertScalar st n v i).2.basename = st.basename ∧
      (insertScalar st n v i).2.save_freq = st.save_freq ∧
      (insertScalar st n v i).2.save_calls = st.save_calls := by
  unfold insertScalar
  cases get_name st n with
  | error e => simp
  | ok nm =>
    simp only []
    split <;> (try split) <;> (try split_ifs) <;> simp

/-- Columns only grow across `__insert_scalar`. -/
theorem insertScalar_hasCol_mono (st : LoggerState) (n : String) (v : CellValue)
    (i : Option Int) (c : String) (hc : st.data.hasCol c = true) :
    (insertScalar st n v i).2.data.hasCol c = true := by
  unfold insertScalar
  cases get_name st n with
  | error e => simpa using hc
  | ok nm =>
    simp only []
    split <;> (try split) <;> (try split_ifs) <;>
      simp_all [DataFrame.setCell, DataFrame.hasCol, DataFrame.addCol]

/-- Looking up a key right after setting it yields the set value. -/
theorem dictFind_set_self (d : List (String × String)) (k v : String) :
    dictFind (dictSet d k v) k = some v := by
  unfold dictFind dictSet
  by_cases h : d.any (fun kv => decide (kv.1 = k)) = true
  · rw [if_pos h]
    rw [List.find?_map]
    have hpf : ((fun kv : String × String => decide (kv.1 = k)) ∘
        (fun kv : String × String => if kv.1 = k then (k, v) else kv))
        = (fun kv : String × String => decide (kv.1 = k)) := by
      funext kv
      by_cases hkv : kv.1 = k <;> simp [hkv]
    rw [hpf]
    have hex : ∃ x, x ∈ d ∧ (fun kv : String × String => decide (kv.1 = k)) x = true :=
      List.any_eq_true.mp h
    obtain ⟨kv1, hfind⟩ := Option.isSome_iff_exists.mp (List.find?_isSome.mpr hex)
    have hp := List.find?_some hfind
    have hkv1 : kv1.1 = k := by simpa using hp
    rw [hfind]
    simp [hkv1]
  · rw [if_neg h]
    rw [List.find?_append]
    have hdn : d.find? (fun kv => decide (kv.1 = k)) = none := by
      rw [List.find?_eq_none]
      intro x hx
      simp only [decide_eq_true_eq]
      intro hxk
      exact h (List.any_eq_true.mpr ⟨x, hx, by simp [hxk]⟩)
    rw [hdn]
    simp

/-- `__insert_scalar` always leaves the resolved column present
(whatever the outcome), provided the postfix is a string so that name
resolution succeeds: either the column existed or the creation branch
added it before any check could raise. -/
theorem insertScalar_hasCol_self (st : LoggerState) (n : String) (v : CellValue)
    (i : Option Int) (q : String) (hq : st.postfixStr = some q) :
    (insertScalar st n v i).2.data.hasCol (st.prefixStr ++ n ++ q) = true := by
  unfold insertScalar
  rw [show get_name st n = .ok (st.prefixStr ++ n ++ q) by simp [get_name, hq]]
  simp only []
  by_cases hcol : st.data.hasCol (st.prefixStr ++ n ++ q) = true
  · rw [if_pos hcol]
    split
    · simpa using hcol
    · split_ifs with hts
      · simp only [DataFrame.setCell, DataFrame.hasCol] at hcol ⊢
        exact hcol
      · simpa using hcol
  · rw [if_neg hcol]
    simp [dictFind_set_self, DataFrame.setCell, DataFrame.hasCol, DataFrame.addCol]

/-- Frame facts for `save`: it touches only the save bookkeeping and
the directory, never the table, metadata, names or prefixes. -/
theorem save_frame (st : LoggerState) (fs : DirContents) (force : Bool) :
    (save st fs force).1.prefixStr = st.prefixStr ∧
      (save st fs force).1.postfixStr = st.postfixStr ∧
      (save st fs force).1.data = st.data ∧
      (save st fs force).1.metadata = st.metadata ∧
      (save st fs force).1.basename = st.basename ∧
      (save st fs force).1.save_freq = st.save_freq := by
  simp only [save]
  split_ifs <;> simp

/-- The `add_scalars` insert loop preserves the name-resolution and
save-bookkeeping fields, whatever its outcome. -/
theorem insertScalarList_frame (kvs : List (String × CellValue)) :
    ∀ (st : LoggerState) (i : Option Int),
      (insertScalarList st i kvs).2.prefixStr = st.prefixStr ∧
        (insertScalarList st i kvs).2.postfixStr = st.postfixStr ∧
        (insertScalarList st i kvs).2.basename = st.basename ∧
        (insertScalarList st i kvs).2.save_freq = st.save_freq ∧
        (insertScalarList st i kvs).2.save_calls = st.save_calls := by
  induction kvs with
  | nil => intro st i; simp [insertScalarList]
  | cons kv rest ih =>
    intro st i
    obtain ⟨k, v⟩ := kv
    have hframe := insertScalar_frame st k v i
    unfold insertScalarList
    rcases hins : insertScalar st k v i with ⟨r, st1⟩
    rw [hins] at hframe
    cases r with
    | ok u =>
      have hr := ih st1 i
      simp only []
      exact ⟨hr.1.trans hframe.1, hr.2.1.trans hframe.2.1,
        hr.2.2.1.trans hframe.2.2.1, hr.2.2.2.1.trans hframe.2.2.2.1,
        hr.2.2.2.2.trans hframe.2.2.2.2⟩
    | error e => exact hframe

/-- Columns only grow across the `add_scalars` insert loop. -/
theorem insertScalarList_hasCol_mono (kvs : List (String × CellValue)) :
    ∀ (st : LoggerState) (i : Option Int) (c : String),
      st.data.hasCol c = true →
      (insertScalarList st i kvs).2.data.hasCol c = true := by
  induction kvs with
  | nil => intro st i c hc; simpa [insertScalarList] using hc
  | cons kv rest ih =>
    intro st i c hc
    obtain ⟨k, v⟩ := kv
    have hmono := insertScalar_hasCol_mono st k v i c hc
    unfold insertScalarList
    rcases hins : insertScalar st k v i with ⟨r, st1⟩
    rw [hins] at hmono
    cases r with
    | ok u => exact ih st1 i c hmono
    | error e => exact hmono

/-- After a successful `add_scalars` insert loop every given key is
present as a column under the loop state's prefix and postfix. -/
theorem insertScalarList_hasCol_all (kvs : List (String × CellValue)) :
    ∀ (st : LoggerState) (i : Option Int) (q : String),
      st.postfixStr = some q →
      (insertScalarList st i kvs).1 = .ok () →
      ∀ k, k ∈ kvs.map Prod.fst →
        (insertScalarList st i kvs).2.data.hasCol (st.prefixStr ++ k ++ q) = true := by
  induction kvs with
  | nil => intro st i q hq hok k hk; simp at hk
  | cons kv rest ih =>
    intro st i q hq hok k hk
    obtain ⟨k0, v0⟩ := kv
    have hself := insertScalar_hasCol_self st k0 v0 i q hq
    have hframe := insertScalar_frame st k0 v0 i
    unfold insertScalarList at hok ⊢
    rcases hins : insertScalar st k0 v0 i with ⟨r, st1⟩
    rw [hins] at hself hframe hok
    cases r with
    | ok u =>
      simp only [] at hok ⊢
      simp only [List.map_cons, List.mem_cons] at hk
      rcases hk with hk0 | hkrest
      · subst hk0
        exact insertScalarList_hasCol_mono rest st1 i _ hself
      · have := ih st1 i q (hframe.2.1.trans hq) hok k hkrest
        rw [hframe.1] at this
        exact this
    | error e => simp at hok

/-- C6 counterexample.  The claim asserts prefix/postfix restoration
"whether all insertions succeed or one fails with a type-mismatch
error", but the restoring statement of `add_scalars`
(`training_logger.py` line 255) runs only after the loop and the
save: on a logger whose column `"ax"` has type `text`, the call
`add_scalars(pre="a", x=1)` raises the type-mismatch
`AssertionError` and leaves the prefix equal to `"a"` instead of the
pre-call `""`. -/
theorem C6_counterexample :
    (add_scalars ((add_text (freshLogger "d" 50) emptyDir "ax" (.str "s") none).2.1)
        ((add_text (freshLogger "d" 50) emptyDir "ax" (.str "s") none).2.2)
        "a" "" none [("x", .num 1)]).1 = .error .assertionError ∧
      (add_scalars ((add_text (freshLogger "d" 50) emptyDir "ax" (.str "s") none).2.1)
          ((add_text (freshLogger "d" 50) emptyDir "ax" (.str "s") none).2.2)
          "a" "" none [("x", .num 1)]).2.1.prefixStr = "a" ∧
      ((add_text (freshLogger "d" 50) emptyDir "ax" (.str "s") none).2.1).prefixStr
        = "" := by
  refine ⟨by decide, by decide, by decide⟩

/-- C6, amended.  The pre/post extension of `add_scalars` is applied
uniformly: every inserted key becomes a column under the extended
prefix and postfix.  When every insertion succeeds the prefix and
postfix are restored to their pre-call values; when an insertion
fails with a type-mismatch error the restore statement is skipped and
they remain extended by `pre` and `post`. -/
theorem C6_add_scalars_amended (st : LoggerState) (fs : DirContents)
    (pre post : String) (it : Option Int) (kvs : List (String × CellValue))
    (p : String) (hpost : st.postfixStr = some p) :
    (∀ st2 fs2, add_scalars st fs pre post it kvs = (.ok (), st2, fs2) →
      st2.prefixStr = st.prefixStr ∧ st2.postfixStr = st.postfixStr ∧
      ∀ k, k ∈ kvs.map Prod.fst →
        st2.data.hasCol (st.prefixStr ++ pre ++ k ++ (p ++ post)) = true) ∧
    (∀ e st2 fs2, add_scalars st fs pre post it kvs = (.error e, st2, fs2) →
      st2.prefixStr = st.prefixStr ++ pre ∧
      st2.postfixStr = some (p ++ post)) := by
  unfold add_scalars
  simp only [hpost]
  rcases hrun : insertScalarList
      { st with prefixStr := st.prefixStr ++ pre, postfixStr := some (p ++ post) }
      (some (it.getD (st.data.numRows : Int))) kvs with ⟨r, stl⟩
  have hframe := insertScalarList_frame kvs
    { st with prefixStr := st.prefixStr ++ pre, postfixStr := some (p ++ post) }
    (some (it.getD (st.data.numRows : Int)))
  rw [hrun] at hframe
  cases r with
  | ok u =>
    cases u
    have hsave := save_frame stl fs false
    constructor
    · intro st2 fs2 hcall
      simp only [Prod.mk.injEq] at hcall
      obtain ⟨-, hst2, hfs2⟩ := hcall
      subst hst2
      refine ⟨rfl, rfl, ?_⟩
      intro k hk
      have hcols := insertScalarList_hasCol_all kvs
        { st with prefixStr := st.prefixStr ++ pre, postfixStr := some (p ++ post) }
        (some (it.getD (st.data.numRows : Int))) (p ++ post) rfl
        (by rw [hrun]) k hk
      rw [hrun] at hcols
      simp only [] at hcols
      show ((save stl fs false).1.data).hasCol (st.prefixStr ++ pre ++ k ++ (p ++ post))
        = true
      rw [hsave.2.2.1]
      exact hcols
    · intro e st2 fs2 hcall
      simp at hcall
  | error e2 =>
    constructor
    · intro st2 fs2 hcall
      simp at hcall
    · intro e st2 fs2 hcall
      simp only [Prod.mk.injEq] at hcall
      obtain ⟨-, hst2, -⟩ := hcall
      subst hst2
      exact ⟨hframe.1, hframe.2.1⟩

/-- Witness for C6 at a concrete call: both keys land under the
extended names and the prefix/postfix are restored. -/
theorem C6_add_scalars_amended_witness :
    (freshLogger "d" 50).postfixStr = some "" ∧
      ∀ st2 fs2,
        add_scalars (freshLogger "d" 50) emptyDir "a/" "!" none
            [("x", .num 1), ("y", .num 2)] = (.ok (), st2, fs2) →
        st2.prefixStr = (freshLogger "d" 50).prefixStr ∧
          st2.postfixStr = (freshLogger "d" 50).postfixStr ∧
          ∀ k, k ∈ ([("x", CellValue.num 1), ("y", CellValue.num 2)].map Prod.fst) →
            st2.data.hasCol ((freshLogger "d" 50).prefixStr ++ "a/" ++ k ++ ("" ++ "!"))
              = true :=
  ⟨rfl, (C6_add_scalars_amended (freshLogger "d" 50) emptyDir "a/" "!" none
    [("x", .num 1), ("y", .num 2)] "" rfl).1⟩

/-! ### C3: the metadata/columns invariant -/

/-- `setEqB` is set equality of the underlying lists. -/
theorem setEqB_iff (a b : List String) :
    setEqB a b = true ↔ ∀ x, x ∈ a ↔ x ∈ b := by
  simp only [setEqB, Bool.and_eq_true, List.all_eq_true, List.contains,
    List.elem_eq_mem, decide_eq_true_eq]
  constructor
  · rintro ⟨h1, h2⟩ x
    exact ⟨fun hx => h1 x hx, fun hx => h2 x hx⟩
  · intro h
    exact ⟨fun x hx => (h x).mp hx, fun x hx => (h x).mpr hx⟩

/-- Setting an absent key appends it to the key list. -/
theorem keys_dictSet_not_mem (d : List (String × String)) (k v : String)
    (h : k ∉ d.map Prod.fst) :
    (dictSet d k v).map Prod.fst = d.map Prod.fst ++ [k] := by
  unfold dictSet
  rw [if_neg, List.map_append]
  · rfl
  · intro hany
    obtain ⟨kv, hmem, hkv⟩ := List.any_eq_true.mp hany
    exact h (List.mem_map.mpr ⟨kv, hmem, by simpa using hkv⟩)

/-- Setting a present key leaves the key list unchanged. -/
theorem keys_dictSet_mem (d : List (String × String)) (k v : String)
    (h : k ∈ d.map Prod.fst) :
    (dictSet d k v).map Prod.fst = d.map Prod.fst := by
  unfold dictSet
  rw [if_pos]
  · rw [List.map_map]
    refine List.map_congr_left ?_
    intro kv _
    by_cases hkv : kv.1 = k <;> simp [hkv]
  · obtain ⟨kv, hmem, hkv⟩ := List.mem_map.mp h
    exact List.any_eq_true.mpr ⟨kv, hmem, by simp [hkv]⟩

/-- The key list of `dictSet`, unconditionally. -/
theorem keys_dictSet (d : List (String × String)) (k v : String) :
    (dictSet d k v).map Prod.fst
      = if k ∈ d.map Prod.fst then d.map Prod.fst else d.map Prod.fst ++ [k] := by
  by_cases h : k ∈ d.map Prod.fst
  · rw [if_pos h, keys_dictSet_mem d k v h]
  · rw [if_neg h, keys_dictSet_not_mem d k v h]

/-- The invariant survives the implicit column-creation step shared
by the three insert paths. -/
theorem InvB_create (st : LoggerState) (nm T : String) (h : InvB st = true)
    (hcol : st.data.hasCol nm = false) :
    InvB { st with
      data := st.data.addCol nm
      metadata := dictSet st.metadata nm T
      meta_changed := true } = true := by
  have hmem : nm ∉ st.metadata.map Prod.fst := by
    intro hk
    have := (setEqB_iff _ _).mp h nm |>.mp hk
    simp [DataFrame.hasCol] at hcol
    exact hcol this
  simp only [InvB] at h ⊢
  rw [keys_dictSet_not_mem st.metadata nm T hmem]
  rw [setEqB_iff] at h ⊢
  intro x
  simp only [DataFrame.addCol, List.mem_append, List.mem_singleton]
  constructor
  · rintro (hx | hx)
    · exact Or.inl ((h x).mp hx)
    · exact Or.inr hx
  · rintro (hx | hx)
    · exact Or.inl ((h x).mpr hx)
    · exact Or.inr hx

/-- `__insert_scalar` preserves the invariant, also when it raises. -/
theorem insertScalar_InvB (st : LoggerState) (n : String) (v : CellValue)
    (i : Option Int) (h : InvB st = true) :
    InvB (insertScalar st n v i).2 = true := by
  unfold insertScalar
  cases get_name st n with
  | error e => simpa using h
  | ok nm =>
    simp only []
    by_cases hcol : st.data.hasCol nm = true
    · rw [if_pos hcol]
      split
      · simpa using h
      · split_ifs
        · simpa [InvB, DataFrame.setCell] using h
        · simpa using h
    · rw [if_neg hcol]
      have hcr := InvB_create st nm "scalar" h (by simpa using hcol)
      split
      · simpa using hcr
      · split_ifs
        · simpa [InvB, DataFrame.setCell] using hcr
        · simpa using hcr

/-- `__insert_text` preserves the invariant, also when it raises. -/
theorem insertText_InvB (st : LoggerState) (n : String) (v : CellValue)
    (i : Option Int) (h : InvB st = true) :
    InvB (insertText st n v i).2 = true := by
  unfold insertText
  cases get_name st n with
  | error e => simpa using h
  | ok nm =>
    simp only []
    by_cases hcol : st.data.hasCol nm = true
    · rw [if_pos hcol]
      split
      · simpa using h
      · split_ifs
        · simpa [InvB, DataFrame.setCell] using h
        · simpa using h
    · rw [if_neg hcol]
      have hcr := InvB_create st nm "text" h (by simpa using hcol)
      split
      · simpa using hcr
      · split_ifs
        · simpa [InvB, DataFrame.setCell] using hcr
        · simpa using hcr

/-- The `add_scalars` insert loop preserves the invariant, also when
it stops at a raise. -/
theorem insertScalarList_InvB (kvs : List (String × CellValue)) :
    ∀ (st : LoggerState) (i : Option Int), InvB st = true →
      InvB (insertScalarList st i kvs).2 = true := by
  induction kvs with
  | nil => intro st i h; simpa [insertScalarList] using h
  | cons kv rest ih =>
    intro st i h
    obtain ⟨k, v⟩ := kv
    have hstep := insertScalar_InvB st k v i h
    unfold insertScalarList
    rcases hins : insertScalar st k v i with ⟨r, st1⟩
    rw [hins] at hstep
    cases r with
    | ok u => exact ih st1 i hstep
    | error e => exact hstep

/-- `save` (hence `flush`) preserves the invariant. -/
theorem save_InvB (st : LoggerState) (fs : DirContents) (force : Bool)
    (h : InvB st = true) : InvB (save st fs force).1 = true := by
  have hf := save_frame st fs force
  simp only [InvB] at h ⊢
  rw [hf.2.2.2.1, hf.2.2.1]
  exact h

/-- Whatever path the `except FileNotFoundError` handler takes, a
logger it returns is fresh. -/
theorem initExceptHandler_ok (fs : Option DirContents) (ow : Bool) (ans : String)
    (k : Nat) (b : String) (st : LoggerState) (fs2 : DirContents)
    (h : initExceptHandler fs ow ans k b = .ok (st, fs2)) :
    st = freshLogger b k ∧ fs2 = emptyDir := by
  unfold initExceptHandler at h
  rcases fs with _ | dir
  · simp only [Except.ok.injEq, Prod.mk.injEq] at h
    exact ⟨h.1.symm, h.2.symm⟩
  · simp only [] at h
    split_ifs at h <;>
      (simp only [Except.ok.injEq, Prod.mk.injEq] at h
       exact ⟨h.1.symm, h.2.symm⟩)

/-- C3.  The invariant "metadata keys = table columns (as sets)"
holds for a fresh logger, holds for any logger `__init__` returns
(checked on load, trivial on create), and is preserved by every
public mutating operation — `add_scalar`, `add_text`, `add_image`,
`add_scalars`, the four prefix/postfix mutators, `save` and `flush` —
including calls that raise partway, whose post-raise state is the
second component here. -/
theorem C3_metadata_column_invariant :
    (∀ b k, InvB (freshLogger b k) = true) ∧
    (∀ fs ow ans k b st fs2,
      initTrainingLogger fs ow ans k b = .ok (st, fs2) → InvB st = true) ∧
    (∀ st fs n v i, InvB st = true → InvB (add_scalar st fs n v i).2.1 = true) ∧
    (∀ st fs n v i, InvB st = true → InvB (add_text st fs n v i).2.1 = true) ∧
    (∀ st fs n i, InvB st = true → InvB (add_image st fs n i).2.1 = true) ∧
    (∀ st fs pre post it kvs, InvB st = true →
      InvB (add_scalars st fs pre post it kvs).2.1 = true) ∧
    (∀ st n, InvB st = true → InvB (prefixAdd st n) = true) ∧
    (∀ st n, InvB st = true → InvB (prefixRemove st n).2 = true) ∧
    (∀ st n, InvB st = true → InvB (postfixAdd st n).2 = true) ∧
    (∀ st n, InvB st = true → InvB (postfixRemove st n).2 = true) ∧
    (∀ st fs force, InvB st = true → InvB (save st fs force).1 = true) ∧
    (∀ st fs, InvB st = true → InvB (flush st fs).1 = true) := by
  refine ⟨?_, ?_, ?_, ?_, ?_, ?_, ?_, ?_, ?_, ?_, ?_, ?_⟩
  · intro b k; rfl
  · intro fs ow ans k b st fs2 hinit
    unfold initTrainingLogger at hinit
    rcases fs with _ | dir
    · simp only [] at hinit
      obtain ⟨h1, -⟩ := initExceptHandler_ok _ _ _ _ _ _ _ hinit
      subst h1
      rfl
    · simp only [] at hinit
      rcases hdf : dir.dataFile with _ | df <;> rw [hdf] at hinit <;>
        (try simp only [] at hinit)
      · obtain ⟨h1, -⟩ := initExceptHandler_ok _ _ _ _ _ _ _ hinit
        subst h1
        rfl
      · by_cases hov : (!ow && !affirmative ans) = true
        · rw [if_pos hov] at hinit
          simp at hinit
        · rw [if_neg hov] at hinit
          rcases hmf : dir.metaFile with _ | mc <;> rw [hmf] at hinit <;>
            (try simp only [] at hinit)
          · obtain ⟨h1, -⟩ := initExceptHandler_ok _ _ _ _ _ _ _ hinit
            subst h1
            rfl
          · rcases hld : loadMeta mc with _ | md <;> rw [hld] at hinit <;>
              (try simp only [] at hinit)
            · simp at hinit
            · by_cases hseq : setEqB (md.map Prod.fst) df.cols = true
              · rw [if_pos hseq] at hinit
                by_cases htys :
                    ((md.map Prod.snd).all fun v => DATATYPES.contains v) = true
                · rw [if_pos htys] at hinit
                  simp only [Except.ok.injEq, Prod.mk.injEq] at hinit
                  obtain ⟨h1, -⟩ := hinit
                  subst h1
                  simpa [InvB] using hseq
                · rw [if_neg htys] at hinit
                  simp at hinit
              · rw [if_neg hseq] at hinit
                simp at hinit
  · intro st fs n v i h
    have hins := insertScalar_InvB st n v i h
    unfold add_scalar
    rcases hr : insertScalar st n v i with ⟨r, st1⟩
    rw [hr] at hins
    cases r with
    | ok u => exact save_InvB st1 fs false hins
    | error e => exact hins
  · intro st fs n v i h
    have hins := insertText_InvB st n v i h
    unfold add_text
    rcases hr : insertText st n v i with ⟨r, st1⟩
    rw [hr] at hins
    cases r with
    | ok u => exact save_InvB st1 fs false hins
    | error e => exact hins
  · intro st fs n i h
    unfold add_image
    cases get_name st n with
    | error e => simpa using h
    | ok nm =>
      simp only []
      by_cases hcol : st.data.hasCol nm = true
      · rw [if_pos hcol]
        split
        · simpa using h
        · split_ifs
          · exact save_InvB _ _ false (by simpa [InvB, DataFrame.setCell] using h)
          · simpa using h
      · rw [if_neg hcol]
        have hcr := InvB_create st nm "img" h (by simpa using hcol)
        split
        · simpa using hcr
        · split_ifs
          · exact save_InvB _ _ false (by simpa [InvB, DataFrame.setCell] using hcr)
          · simpa using hcr
  · intro st fs pre post it kvs h
    unfold add_scalars
    cases hp : st.postfixStr with
    | none => simpa [InvB] using h
    | some p =>
      simp only []
      have hl := insertScalarList_InvB kvs
        { st with prefixStr := st.prefixStr ++ pre, postfixStr := some (p ++ post) }
        (some (it.getD (st.data.numRows : Int))) (by simpa [InvB] using h)
      rcases hr : insertScalarList
          { st with prefixStr := st.prefixStr ++ pre, postfixStr := some (p ++ post) }
          (some (it.getD (st.data.numRows : Int))) kvs with ⟨r, stl⟩
      rw [hr] at hl
      cases r with
      | ok u =>
        have := save_InvB stl fs false hl
        simpa [InvB] using this
      | error e => exact hl
  · intro st n h; simpa [InvB, prefixAdd] using h
  · intro st n h
    unfold prefixRemove
    split_ifs <;> simpa [InvB] using h
  · intro st n h
    unfold postfixAdd
    cases st.postfixStr <;> simpa [InvB] using h
  · intro st n h
    unfold postfixRemove
    cases st.postfixStr with
    | none => simpa using h
    | some p =>
      by_cases hend : pyEndsWith p n = true
      · simpa [hend, InvB] using h
      · simpa [hend, InvB] using h
  · intro st fs force h; exact save_InvB st fs force h
  · intro st fs h; exact save_InvB st fs true h

/-- Witness for C3 at concrete states: the invariant holds after a
fresh construction and is preserved by a concrete mutating call. -/
theorem C3_metadata_column_invariant_witness :
    InvB (freshLogger "d" 3) = true ∧
      InvB (add_scalar (freshLogger "d" 3) emptyDir "x" (.num 1) none).2.1 = true :=
  ⟨C3_metadata_column_invariant.1 "d" 3,
    C3_metadata_column_invariant.2.2.1 (freshLogger "d" 3) emptyDir "x" (.num 1) none
      (by decide)⟩

/-! ### C8: multi-run tolerant skip -/

/-- Under the metadata/columns invariant, a column is present exactly
when its metadata lookup succeeds. -/
theorem InvB_hasCol_iff (st : LoggerState) (h : InvB st = true) (c : String) :
    st.data.hasCol c = true ↔ dictFind st.metadata c ≠ none := by
  have hset := (setEqB_iff _ _).mp h c
  constructor
  · intro hc hnone
    rw [dictFind] at hnone
    have hfind : st.metadata.find? (fun kv => decide (kv.1 = c)) = none := by
      cases hf : st.metadata.find? (fun kv => decide (kv.1 = c)) with
      | none => rfl
      | some kv => rw [hf] at hnone; simp at hnone
    have hkeys : c ∈ st.metadata.map Prod.fst := by
      apply hset.mpr
      simpa [DataFrame.hasCol] using hc
    obtain ⟨kv, hmem, hkv⟩ := List.mem_map.mp hkeys
    have := List.find?_eq_none.mp hfind kv hmem
    simp [hkv] at this
  · intro hne
    cases hf : st.metadata.find? (fun kv => decide (kv.1 = c)) with
    | none => exact absurd (by simp [dictFind, hf]) hne
    | some kv =>
      have hkv : kv.1 = c := by simpa using List.find?_some hf
      have hmem : c ∈ st.metadata.map Prod.fst :=
        List.mem_map.mpr ⟨kv, List.mem_of_find?_eq_some hf, hkv⟩
      simpa [DataFrame.hasCol] using hset.mp hmem

/-- `show_graph` with no smoothing, characterized by the metadata
lookup of the column, for loggers satisfying the invariant. -/
theorem show_graph_series_w0 (g : Int → ℚ) (viz : LogVisualizer) (name : String)
    (hinv : InvB viz.logger = true) :
    show_graph_series g 0 viz name
      = (match dictFind viz.logger.metadata name with
         | some t =>
           if t = "scalar" then
             .ok ⟨viz.labelPre ++ name, viz.logger.data.dropna name⟩
           else .error .assertionError
         | none => .error .assertionError) := by
  unfold show_graph_series
  cases hf : dictFind viz.logger.metadata name with
  | none =>
    have hcol : viz.logger.data.hasCol name = false := by
      by_contra hc
      have : viz.logger.data.hasCol name = true := by
        cases hb : viz.logger.data.hasCol name
        · exact absurd hb hc
        · rfl
      exact (InvB_hasCol_iff viz.logger hinv name).mp this hf
    rw [hcol]
    simp
  | some t =>
    have hcol : viz.logger.data.hasCol name = true := by
      apply (InvB_hasCol_iff viz.logger hinv name).mpr
      simp [hf]
    rw [hcol]
    simp only [if_true, hf]
    split_ifs <;> first | omega | simp

/-- `renderRow` under the invariant with no smoothing renders exactly
the runs whose metadata declares the column as `scalar`, skipping the
rest. -/
theorem renderRow_w0 (g : Int → ℚ) (name : String) :
    ∀ vizs : List LogVisualizer, (∀ viz ∈ vizs, InvB viz.logger = true) →
      renderRow g 0 vizs name
        = .ok (vizs.filterMap (fun viz =>
            if dictFind viz.logger.metadata name = some "scalar" then
              some ⟨viz.labelPre ++ name, viz.logger.data.dropna name⟩
            else none)) := by
  intro vizs
  induction vizs with
  | nil => intro _; rfl
  | cons viz rest ih =>
    intro hinv
    have hhd := show_graph_series_w0 g viz name (hinv viz (by simp))
    have hr := ih (fun v hv => hinv v (by simp [hv]))
    unfold renderRow
    cases hf : dictFind viz.logger.metadata name with
    | none =>
      rw [hf] at hhd
      have herr : show_graph_series g 0 viz name = .error .assertionError := hhd
      rw [herr]
      simp [hr, hf]
    | some t =>
      rw [hf] at hhd
      by_cases hts : t = "scalar"
      · subst hts
        have hok : show_graph_series g 0 viz name
            = .ok ⟨viz.labelPre ++ name, viz.logger.data.dropna name⟩ := hhd
        have hfv : (if dictFind viz.logger.metadata name = some "scalar" then
              some (⟨viz.labelPre ++ name, viz.logger.data.dropna name⟩ : Series)
            else none)
            = some ⟨viz.labelPre ++ name, viz.logger.data.dropna name⟩ := by
          simp [hf]
        rw [hok, hr, List.filterMap_cons, hfv]
        rfl
      · have herr : show_graph_series g 0 viz name = .error .assertionError := by
          rw [hhd]
          simp [hts]
        rw [herr]
        simp [hr, hf, hts]

/-- Any error escaping `renderRow` is not an `AssertionError`: those
are all caught by the `except AssertionError: pass`. -/
theorem renderRow_error_not_assertion (g : Int → ℚ) (sw : Nat) (name : String) :
    ∀ (vizs : List LogVisualizer) (e : PyErr),
      renderRow g sw vizs name = .error e → e ≠ .assertionError := by
  intro vizs
  induction vizs with
  | nil => intro e he; simp [renderRow] at he
  | cons viz rest ih =>
    intro e he
    unfold renderRow at he
    cases hs : show_graph_series g sw viz name with
    | ok s =>
      rw [hs] at he
      cases hr : renderRow g sw rest name with
      | ok l =>
        rw [hr] at he
        simp [Except.map] at he
      | error e2 =>
        rw [hr] at he
        simp only [Except.map, Except.error.injEq] at he
        subst he
        exact ih e2 hr
    | error e2 =>
      rw [hs] at he
      cases e2
      case assertionError => exact ih e he
      all_goals (cases he; decide)

/-- Any error escaping `MultiLogVisualizer.show_scalars` is not an
`AssertionError`. -/
theorem multiShowScalars_error_not_assertion (g : Int → ℚ) (sw : Nat)
    (vizs : List LogVisualizer) :
    ∀ (names : List String) (e : PyErr),
      multiShowScalars g sw vizs names = .error e → e ≠ .assertionError := by
  intro names
  induction names with
  | nil => intro e he; simp [multiShowScalars] at he
  | cons name rest ih =>
    intro e he
    unfold multiShowScalars at he
    cases hrow : renderRow g sw vizs name with
    | ok l =>
      rw [hrow] at he
      cases hrest : multiShowScalars g sw vizs rest with
      | ok l2 =>
        rw [hrest] at he
        simp at he
      | error e2 =>
        rw [hrest] at he
        have he2 : (Except.error e2 : Except PyErr (List Series)) = .error e := he
        cases he2
        exact ih _ hrest
    | error e2 =>
      rw [hrow] at he
      have he2 : (Except.error e2 : Except PyErr (List Series)) = .error e := he
      cases he2
      exact renderRow_error_not_assertion g sw name vizs _ hrow

/-- C8.  For runs satisfying the load invariant,
`MultiLogVisualizer.show_scalars(names)` (no smoothing, the default)
succeeds and renders exactly the (name, run) pairs whose column
exists with declared type `scalar` in that run, in loop order —
absent or type-mismatched pairs are silently skipped via
`except AssertionError: pass` — and an error escaping any
`show_scalars` call is never one of the skippable assertion
failures: everything else propagates. -/
theorem C8_multi_show_scalars_skip (g : Int → ℚ) (vizs : List LogVisualizer)
    (names : List String) (hinv : ∀ viz ∈ vizs, InvB viz.logger = true) :
    multiShowScalars g 0 vizs names
      = .ok (names.flatMap (fun name => vizs.filterMap (fun viz =>
          if dictFind viz.logger.metadata name = some "scalar" then
            some ⟨viz.labelPre ++ name, viz.logger.data.dropna name⟩
          else none))) ∧
    (∀ (g2 : Int → ℚ) (sw : Nat) (vizs2 : List LogVisualizer)
        (names2 : List String) (e : PyErr),
      multiShowScalars g2 sw vizs2 names2 = .error e → e ≠ .assertionError) := by
  constructor
  · induction names with
    | nil => rfl
    | cons name rest ih =>
      unfold multiShowScalars
      rw [renderRow_w0 g name vizs hinv, ih]
      rfl
  · intro g2 sw vizs2 names2 e he
    exact multiShowScalars_error_not_assertion g2 sw vizs2 names2 e he

/-- Witness for C8: two runs of which only one has column `"loss"`;
`show_scalars(["loss"])` succeeds and renders exactly one series. -/
theorem C8_multi_show_scalars_skip_witness :
    multiShowScalars (fun _ => 1) 0
        [⟨(add_scalar (freshLogger "a" 50) emptyDir "loss" (.num 1) none).2.1, "a/"⟩,
         ⟨freshLogger "b" 50, "b/"⟩] ["loss"]
      = .ok [⟨"a/" ++ "loss", [((0 : Int), CellValue.num 1)]⟩] := by
  have h := (C8_multi_show_scalars_skip (fun _ => 1)
    [⟨(add_scalar (freshLogger "a" 50) emptyDir "loss" (.num 1) none).2.1, "a/"⟩,
     ⟨freshLogger "b" 50, "b/"⟩] ["loss"] (by decide)).1
  rw [h]
  decide

/-! ### C5: buffered save threshold -/

/-- Values of a dict after `d[k] = v` are the old values or `v`. -/
theorem dictSet_forall_values (d : List (String × String)) (k v : String)
    (P : String → Prop) (hv : P v) (hd : ∀ kv ∈ d, P kv.2) :
    ∀ kv ∈ dictSet d k v, P kv.2 := by
  intro kv hkv
  unfold dictSet at hkv
  split at hkv
  · obtain ⟨kv0, hkv0, heq⟩ := List.mem_map.mp hkv
    by_cases h0 : kv0.1 = k
    · rw [if_pos h0] at heq
      rw [← heq]
      exact hv
    · rw [if_neg h0] at heq
      rw [← heq]
      exact hd kv0 hkv0
  · rcases List.mem_append.mp hkv with h | h
    · exact hd kv h
    · simp only [List.mem_singleton] at h
      rw [h]
      exact hv

/-- `__insert_scalar` keeps every declared type `scalar` when they
all were. -/
theorem insertScalar_values (st : LoggerState) (n : String) (v : CellValue)
    (i : Option Int) (hmd : ∀ kv ∈ st.metadata, kv.2 = "scalar") :
    ∀ kv ∈ (insertScalar st n v i).2.metadata, kv.2 = "scalar" := by
  unfold insertScalar
  cases get_name st n with
  | error e => exact hmd
  | ok nm =>
    simp only []
    split <;> (try split) <;> (try split_ifs) <;>
      first
      | exact hmd
      | exact dictSet_forall_values st.metadata nm "scalar"
          (fun s => s = "scalar") rfl hmd

/-- With the invariant, all-scalar metadata and a string postfix,
`__insert_scalar` cannot raise. -/
theorem insertScalar_scalar_succeeds (st : LoggerState) (n : String) (v : CellValue)
    (i : Option Int) (q : String) (hinv : InvB st = true)
    (hmd : ∀ kv ∈ st.metadata, kv.2 = "scalar") (hq : st.postfixStr = some q) :
    (insertScalar st n v i).1 = .ok () := by
  unfold insertScalar
  rw [show get_name st n = .ok (st.prefixStr ++ n ++ q) from by simp [get_name, hq]]
  simp only []
  by_cases hcol : st.data.hasCol (st.prefixStr ++ n ++ q) = true
  · rw [if_pos hcol]
    cases hf : dictFind st.metadata (st.prefixStr ++ n ++ q) with
    | none =>
      exact absurd hf ((InvB_hasCol_iff st hinv (st.prefixStr ++ n ++ q)).mp hcol)
    | some t =>
      have ht : t = "scalar" := by
        rw [dictFind] at hf
        cases hfind : st.metadata.find?
            (fun kv => decide (kv.1 = (st.prefixStr ++ n ++ q))) with
        | none => rw [hfind] at hf; simp at hf
        | some kv =>
          rw [hfind] at hf
          simp at hf
          rw [← hf]
          exact hmd kv (List.mem_of_find?_eq_some hfind)
      subst ht
      rfl
  · rw [if_neg hcol]
    have hx : dictFind ({ st with
        data := st.data.addCol (st.prefixStr ++ n ++ q)
        metadata := dictSet st.metadata (st.prefixStr ++ n ++ q) "scalar"
        meta_changed := true } : LoggerState).metadata (st.prefixStr ++ n ++ q)
        = some "scalar" := dictFind_set_self st.metadata (st.prefixStr ++ n ++ q) "scalar"
    rw [hx]
    rfl

/-- Composite success lemma for `__insert_scalar` on all-scalar
loggers. -/
theorem insertScalar_scalar_ok (st : LoggerState) (n : String) (v : CellValue)
    (i : Option Int) (q : String) (hinv : InvB st = true)
    (hmd : ∀ kv ∈ st.metadata, kv.2 = "scalar") (hq : st.postfixStr = some q) :
    insertScalar st n v i = (.ok (), (insertScalar st n v i).2) ∧
      InvB (insertScalar st n v i).2 = true ∧
      (∀ kv ∈ (insertScalar st n v i).2.metadata, kv.2 = "scalar") ∧
      (insertScalar st n v i).2.postfixStr = some q ∧
      (insertScalar st n v i).2.save_calls = st.save_calls ∧
      (insertScalar st n v i).2.save_freq = st.save_freq := by
  have hfr := insertScalar_frame st n v i
  refine ⟨?_, insertScalar_InvB st n v i hinv, insertScalar_values st n v i hmd,
    hfr.2.1.trans hq, hfr.2.2.2.2, hfr.2.2.2.1⟩
  have hp : insertScalar st n v i
      = ((insertScalar st n v i).1, (insertScalar st n v i).2) := rfl
  rw [hp, insertScalar_scalar_succeeds st n v i q hinv hmd hq]

/-- Below the threshold, a non-forced `save` only bumps the counter
and leaves the directory untouched. -/
theorem save_noTrigger (st : LoggerState) (fs : DirContents)
    (h : st.save_calls + 1 < st.save_freq) :
    save st fs false = ({ st with save_calls := st.save_calls + 1 }, fs) := by
  unfold save
  have hc : ¬ (st.save_calls + 1 ≥ st.save_freq) := by omega
  simp [hc]

/-- A forced save, or one that reaches the threshold, writes the
frame to `data.csv` and resets the counter. -/
theorem save_trigger (st : LoggerState) (fs : DirContents) (force : Bool)
    (h : force = true ∨ st.save_calls + 1 ≥ st.save_freq) :
    (save st fs force).2.dataFile = some st.data ∧
      (save st fs force).1.save_calls = 0 := by
  unfold save
  have hc : (force || decide (st.save_calls + 1 ≥ st.save_freq)) = true := by
    rcases h with h | h
    · simp [h]
    · simp [h]
  rw [if_pos hc]
  split_ifs <;> simp

/-- `data.meta` is rewritten only when the metadata changed since the
last write. -/
theorem save_meta_unchanged (st : LoggerState) (fs : DirContents) (force : Bool)
    (h : st.meta_changed = false) :
    (save st fs force).2.metaFile = fs.metaFile := by
  simp only [save]
  split_ifs <;> simp_all

/-- Running a list of `add_scalar` calls from an all-scalar logger
always succeeds, preserves the invariants, and — while the counter
stays below the threshold — leaves the directory untouched while the
counter advances by one per call. -/
theorem runScalarOps (pairs : List (String × CellValue)) :
    ∀ (st : LoggerState) (fs : DirContents) (q : String),
      InvB st = true → (∀ kv ∈ st.metadata, kv.2 = "scalar") →
      st.postfixStr = some q →
      ∃ st1 fs1, runAddOps st fs (scalarOps pairs) = .ok (st1, fs1) ∧
        InvB st1 = true ∧ (∀ kv ∈ st1.metadata, kv.2 = "scalar") ∧
        st1.postfixStr = some q ∧ st1.save_freq = st.save_freq ∧
        (st.save_calls + pairs.length < st.save_freq →
          fs1 = fs ∧ st1.save_calls = st.save_calls + pairs.length) := by
  induction pairs with
  | nil =>
    intro st fs q h1 h2 h3
    exact ⟨st, fs, rfl, h1, h2, h3, rfl, fun _ => ⟨rfl, by simp⟩⟩
  | cons kv rest ih =>
    intro st fs q h1 h2 h3
    obtain ⟨k0, v0⟩ := kv
    obtain ⟨hins, hinv1, hmd1, hq1, hsc1, hsf1⟩ :=
      insertScalar_scalar_ok st k0 v0 none q h1 h2 h3
    have hadd : add_scalar st fs k0 v0 none
        = (.ok (), (save (insertScalar st k0 v0 none).2 fs false).1,
           (save (insertScalar st k0 v0 none).2 fs false).2) := by
      unfold add_scalar
      rw [hins]
    have hsfr := save_frame (insertScalar st k0 v0 none).2 fs false
    have hstep : ∀ stA fsA, save (insertScalar st k0 v0 none).2 fs false = (stA, fsA) →
        runAddOps st fs (scalarOps (⟨k0, v0⟩ :: rest))
          = runAddOps stA fsA (scalarOps rest) := by
      intro stA fsA hsv
      show (match applyAddOp st fs (.scalar k0 v0 none) with
        | (.ok _, st2, fs2) => runAddOps st2 fs2 (scalarOps rest)
        | (.error e, _, _) => .error e) = _
      show (match add_scalar st fs k0 v0 none with
        | (.ok _, st2, fs2) => runAddOps st2 fs2 (scalarOps rest)
        | (.error e, _, _) => .error e) = _
      rw [hadd, hsv]
    by_cases hcnt : st.save_calls + (⟨k0, v0⟩ :: rest).length < st.save_freq
    · have hlt : (insertScalar st k0 v0 none).2.save_calls + 1
          < (insertScalar st k0 v0 none).2.save_freq := by
        rw [hsc1, hsf1]
        simp only [List.length_cons] at hcnt
        omega
      have hsv := save_noTrigger (insertScalar st k0 v0 none).2 fs hlt
      obtain ⟨st1, fs1, hrun, hi1, hm1, hq2, hsf2, hcond⟩ :=
        ih { (insertScalar st k0 v0 none).2 with
            save_calls := (insertScalar st k0 v0 none).2.save_calls + 1 } fs q
          hinv1 hmd1 hq1
      refine ⟨st1, fs1, ?_, hi1, hm1, hq2, by rw [hsf2]; exact hsf1, ?_⟩
      · rw [hstep _ _ hsv]
        exact hrun
      · intro hlt2
        simp only [List.length_cons] at hlt2
        have hc2 : ({ (insertScalar st k0 v0 none).2 with
            save_calls := (insertScalar st k0 v0 none).2.save_calls + 1 }
              : LoggerState).save_calls + rest.length
            < ({ (insertScalar st k0 v0 none).2 with
            save_calls := (insertScalar st k0 v0 none).2.save_calls + 1 }
              : LoggerState).save_freq := by
          simp only [hsc1, hsf1]
          omega
        obtain ⟨hfs, hsc⟩ := hcond hc2
        refine ⟨hfs, ?_⟩
        rw [hsc]
        simp only [hsc1]
        simp only [List.length_cons]
        omega
    · obtain ⟨st1, fs1, hrun, hi1, hm1, hq2, hsf2, -⟩ :=
        ih (save (insertScalar st k0 v0 none).2 fs false).1
          (save (insertScalar st k0 v0 none).2 fs false).2 q
          (save_InvB _ _ _ hinv1)
          (by rw [hsfr.2.2.2.1]; exact hmd1)
          (by rw [hsfr.2.1]; exact hq1)
      refine ⟨st1, fs1, ?_, hi1, hm1, hq2,
        by rw [hsf2, hsfr.2.2.2.2.2]; exact hsf1, fun hlt2 => absurd hlt2 hcnt⟩
      rw [hstep _ _ rfl]
      exact hrun

/-- Splitting a run of calls at an append. -/
theorem runAddOps_append (l1 l2 : List AddOp) :
    ∀ (st : LoggerState) (fs : DirContents),
      runAddOps st fs (l1 ++ l2)
        = (match runAddOps st fs l1 with
           | .ok p => runAddOps p.1 p.2 l2
           | .error e => .error e) := by
  induction l1 with
  | nil => intro st fs; rfl
  | cons op rest ih =>
    intro st fs
    have hL : runAddOps st fs ((op :: rest) ++ l2)
        = (match applyAddOp st fs op with
           | (.ok _, st2, fs2) => runAddOps st2 fs2 (rest ++ l2)
           | (.error e, _, _) => .error e) := rfl
    have hR : runAddOps st fs (op :: rest)
        = (match applyAddOp st fs op with
           | (.ok _, st2, fs2) => runAddOps st2 fs2 rest
           | (.error e, _, _) => .error e) := rfl
    rw [hL, hR]
    rcases happ : applyAddOp st fs op with ⟨r, st1, fs1⟩
    cases r with
    | ok u => exact ih st1 fs1
    | error e => rfl

/-- C5.  With threshold `save_freq = k`, every `add_scalar` attempts
a save: a run of fewer than `k` writes from a fresh logger leaves the
directory exactly as it was (absent or stale) with the counter
advanced, the `k`-th write flushes the full table to `data.csv` and
resets the counter, `flush()` writes the table unconditionally after
any number of writes, and a save rewrites `data.meta` only when the
metadata changed since the last write. -/
theorem C5_save_threshold (b : String) (k : Nat) (hk : 1 ≤ k)
    (pairs : List (String × CellValue)) (fs0 : DirContents) :
    (∃ r, runAddOps (freshLogger b k) fs0 (scalarOps pairs) = .ok r) ∧
    (∀ st1 fs1,
      runAddOps (freshLogger b k) fs0 (scalarOps pairs) = .ok (st1, fs1) →
      (pairs.length < k → fs1 = fs0 ∧ st1.save_calls = pairs.length) ∧
      (pairs.length = k → fs1.dataFile = some st1.data ∧ st1.save_calls = 0)) ∧
    (∀ (st : LoggerState) (fs : DirContents),
      (flush st fs).2.dataFile = some st.data) ∧
    (∀ (st : LoggerState) (fs : DirContents) (force : Bool),
      st.meta_changed = false → (save st fs force).2.metaFile = fs.metaFile) := by
  have hfreshInv : InvB (freshLogger b k) = true := rfl
  have hfreshMd : ∀ kv ∈ (freshLogger b k).metadata, kv.2 = "scalar" := by
    intro kv h
    simp [freshLogger] at h
  have hfreshPost : (freshLogger b k).postfixStr = some "" := rfl
  refine ⟨?_, ?_, ?_, ?_⟩
  · obtain ⟨st1, fs1, hrun, -⟩ :=
      runScalarOps pairs (freshLogger b k) fs0 "" hfreshInv hfreshMd hfreshPost
    exact ⟨(st1, fs1), hrun⟩
  · intro st1 fs1 hrun1
    constructor
    · intro hlt
      obtain ⟨stX, fsX, hrun, -, -, -, -, hcond⟩ :=
        runScalarOps pairs (freshLogger b k) fs0 "" hfreshInv hfreshMd hfreshPost
      rw [hrun] at hrun1
      simp only [Except.ok.injEq, Prod.mk.injEq] at hrun1
      obtain ⟨h1, h2⟩ := hrun1
      subst h1
      subst h2
      obtain ⟨hfs, hsc⟩ := hcond (by show 0 + pairs.length < k; omega)
      exact ⟨hfs, by rw [hsc]; show 0 + pairs.length = pairs.length; omega⟩
    · intro heq
      rcases List.eq_nil_or_concat pairs with h0 | ⟨front, lastp, hsplit⟩
      · rw [h0] at heq
        simp at heq
        omega
      · rw [List.concat_eq_append] at hsplit
        subst hsplit
        have hlenF : front.length + 1 = k := by simpa using heq
        have hops : scalarOps (front ++ [lastp])
            = scalarOps front ++ scalarOps [lastp] := by
          simp [scalarOps]
        rw [hops, runAddOps_append] at hrun1
        obtain ⟨stF, fsF, hrunF, hiF, hmF, hqF, hsfF, hcondF⟩ :=
          runScalarOps front (freshLogger b k) fs0 "" hfreshInv hfreshMd hfreshPost
        obtain ⟨hfsF, hscF⟩ := hcondF (by show 0 + front.length < k; omega)
        rw [hrunF] at hrun1
        have hrun2 : runAddOps stF fsF (scalarOps [lastp]) = .ok (st1, fs1) := hrun1
        obtain ⟨k0, v0⟩ := lastp
        obtain ⟨hins, hinvI, hmdI, hqI, hscI, hsfI⟩ :=
          insertScalar_scalar_ok stF k0 v0 none "" hiF hmF hqF
        have hadd : add_scalar stF fsF k0 v0 none
            = (.ok (), (save (insertScalar stF k0 v0 none).2 fsF false).1,
               (save (insertScalar stF k0 v0 none).2 fsF false).2) := by
          unfold add_scalar
          rw [hins]
        have hone : runAddOps stF fsF (scalarOps [(k0, v0)])
            = .ok ((save (insertScalar stF k0 v0 none).2 fsF false).1,
                   (save (insertScalar stF k0 v0 none).2 fsF false).2) := by
          show (match applyAddOp stF fsF (.scalar k0 v0 none) with
            | (.ok _, st2, fs2) => runAddOps st2 fs2 ([] : List AddOp)
            | (.error e, _, _) => .error e) = _
          rw [show applyAddOp stF fsF (.scalar k0 v0 none)
            = add_scalar stF fsF k0 v0 none from rfl, hadd]
          rfl
        rw [hone] at hrun2
        simp only [Except.ok.injEq, Prod.mk.injEq] at hrun2
        obtain ⟨h1, h2⟩ := hrun2
        subst h1
        subst h2
        have htrig := save_trigger (insertScalar stF k0 v0 none).2 fsF false
          (Or.inr (by rw [hscI, hsfI, hsfF, hscF]; show 0 + front.length + 1 ≥ k; omega))
        refine ⟨?_, htrig.2⟩
        have hdata : (save (insertScalar stF k0 v0 none).2 fsF false).1.data
            = (insertScalar stF k0 v0 none).2.data := (save_frame _ _ _).2.2.1
        rw [htrig.1, hdata]
  · intro st fs
    exact (save_trigger st fs true (Or.inl rfl)).1
  · intro st fs force h
    exact save_meta_unchanged st fs force h

/-- Witness for C5 at concrete inputs: a forced flush writes the
table, and a save with unchanged metadata does not rewrite the
metadata file. -/
theorem C5_save_threshold_witness :
    (flush (freshLogger "d" 3) emptyDir).2.dataFile
        = some (freshLogger "d" 3).data ∧
      (save (freshLogger "d" 3) emptyDir false).2.metaFile = emptyDir.metaFile :=
  ⟨(C5_save_threshold "d" 3 (by decide) [] emptyDir).2.2.1 (freshLogger "d" 3) emptyDir,
   (C5_save_threshold "d" 3 (by decide) [] emptyDir).2.2.2 (freshLogger "d" 3)
     emptyDir false rfl⟩

/-! ### C1: round-trip persistence -/

/-- The double quote is not JSON whitespace. -/
theorem isWs_dquote : isWs dquote = false := by decide

/-- The colon is not JSON whitespace. -/
theorem isWs_colon : isWs ':' = false := by decide

/-- The comma is not JSON whitespace. -/
theorem isWs_comma : isWs ',' = false := by decide

/-- The closing brace is not JSON whitespace. -/
theorem isWs_rbrace : isWs rbraceC = false := by decide

/-- The opening brace is not JSON whitespace. -/
theorem isWs_lbrace : isWs lbraceC = false := by decide

/-- The space character is JSON whitespace. -/
theorem isWs_space : isWs ' ' = true := by decide

/-- `skipWs` keeps a list headed by a non-whitespace character. -/
theorem skipWs_cons_nws (c : Char) (L : List Char) (h : isWs c = false) :
    skipWs (c :: L) = c :: L := by
  simp [skipWs, h]

/-- `skipWs` drops a whitespace head. -/
theorem skipWs_cons_ws (c : Char) (L : List Char) (h : isWs c = true) :
    skipWs (c :: L) = skipWs L := by
  simp [skipWs, h]

/-- Exhaustive classification of a round-trippable character. -/
theorem rtChar_cases (c : Char) (h : rtChar c = true) :
    (32 ≤ c.toNat ∧ c.toNat ≤ 126 ∧ ¬ c = squote ∧ ¬ c = dquote)
      ∨ c = Char.ofNat 9 ∨ c = Char.ofNat 10 ∨ c = Char.ofNat 13 := by
  simpa [rtChar, and_assoc, or_assoc] using h

/-- A round-trippable string contains no single quote. -/
theorem rtStr_no_squote (s : String) (h : rtStr s = true) :
    squote ∉ s.data := by
  intro hm
  have hall := List.all_eq_true.mp h squote hm
  exact absurd hall (by decide)

/-- On round-trippable characters, the Python `repr` escape under
single quoting coincides with the JSON-level encoding. -/
theorem reprEsc_eq_jsonEnc (c : Char) (h : rtChar c = true) :
    reprEscChar squote c = jsonEncChar c := by
  rcases rtChar_cases c h with ⟨h1, h2, h3, h4⟩ | rfl | rfl | rfl
  · by_cases hb : c = bslash
    · subst hb
      decide
    · have ht9 : ¬ c = Char.ofNat 9 := fun he => by
        rw [he] at h1; exact absurd h1 (by decide)
      have ht10 : ¬ c = Char.ofNat 10 := fun he => by
        rw [he] at h1; exact absurd h1 (by decide)
      have ht13 : ¬ c = Char.ofNat 13 := fun he => by
        rw [he] at h1; exact absurd h1 (by decide)
      have hlt : ¬ ((c.toNat < 32 || c.toNat = 127) = true) := by
        simp only [Bool.or_eq_true, decide_eq_true_eq, not_or]
        omega
      simp [reprEscChar, jsonEncChar, hb, h3, ht9, ht10, ht13, hlt]
  · decide
  · decide
  · decide

/-- `flatMap` only depends on the function on the list members. -/
theorem flatMap_congr_on (l : List Char) (f g : Char → List Char)
    (h : ∀ c, c ∈ l → f c = g c) : l.flatMap f = l.flatMap g := by
  induction l with
  | nil => rfl
  | cons c cs ih =>
    rw [List.flatMap_cons, List.flatMap_cons, h c (List.mem_cons_self c cs),
      ih (fun x hx => h x (List.mem_cons_of_mem _ hx))]

/-- The JSON-level encoding of a round-trippable character never
contains a single quote. -/
theorem squote_not_jsonEnc (c : Char) (h : rtChar c = true) :
    squote ∉ jsonEncChar c := by
  rcases rtChar_cases c h with ⟨h1, h2, h3, h4⟩ | rfl | rfl | rfl
  · by_cases hb : c = bslash
    · subst hb
      decide
    · have ht9 : ¬ c = Char.ofNat 9 := fun he => by
        rw [he] at h1; exact absurd h1 (by decide)
      have ht10 : ¬ c = Char.ofNat 10 := fun he => by
        rw [he] at h1; exact absurd h1 (by decide)
      have ht13 : ¬ c = Char.ofNat 13 := fun he => by
        rw [he] at h1; exact absurd h1 (by decide)
      rw [show jsonEncChar c = [c] from by simp [jsonEncChar, hb, ht9, ht10, ht13]]
      intro hm
      rw [List.mem_singleton] at hm
      exact h3 hm.symm
  · decide
  · decide
  · decide

/-- The JSON-level encoding of a round-trippable string never
contains a single quote. -/
theorem squote_not_flatMap (s : List Char) (h : ∀ c, c ∈ s → rtChar c = true) :
    squote ∉ s.flatMap jsonEncChar := by
  intro hm
  obtain ⟨c, hc, hmem⟩ := List.mem_flatMap.mp hm
  exact squote_not_jsonEnc c (h c hc) hmem

/-- Each JSON-level character encoding is nonempty. -/
theorem jsonEncChar_len (c : Char) : 1 ≤ (jsonEncChar c).length := by
  unfold jsonEncChar
  split_ifs <;> simp

/-- The JSON-level encoding of a string is at least as long as the
string. -/
theorem flatMap_jsonEnc_len (s : List Char) :
    s.length ≤ (s.flatMap jsonEncChar).length := by
  induction s with
  | nil => simp
  | cons c cs ih =>
    rw [List.flatMap_cons, List.length_append, List.length_cons]
    have := jsonEncChar_len c
    omega

/-- `readStr` at a closing quote. -/
theorem readStr_dq (f : Nat) (cs : List Char) :
    readStr (f + 1) (dquote :: cs) = some ([], cs) := by
  simp only [readStr]
  rw [if_pos trivial]

/-- `readStr` at a plain (unescaped, non-control) character. -/
theorem readStr_plain (f : Nat) (c : Char) (cs : List Char) (h1 : ¬ c = dquote)
    (h2 : ¬ c = bslash) (h3 : ¬ c.toNat < 32) :
    readStr (f + 1) (c :: cs)
      = match readStr f cs with
        | some (s, rest) => some (c :: s, rest)
        | none => none := by
  simp only [readStr]
  rw [if_neg h1, if_neg h2, if_neg h3]

/-- `readStr` at a decodable short escape. -/
theorem readStr_esc (f : Nat) (e d : Char) (cs : List Char) (he : jsonEsc e = some d) :
    readStr (f + 1) (bslash :: e :: cs)
      = match readStr f cs with
        | some (s, rest) => some (d :: s, rest)
        | none => none := by
  simp only [readStr]
  rw [if_pos trivial]
  rw [he, if_neg (show (bslash = dquote) → False from by decide)]

/-- `readStr` decodes the JSON-level encoding of a round-trippable
body followed by the closing quote back to the body and the rest,
under any fuel above the body length. -/
theorem readStr_jsonEnc (s : List Char) :
    ∀ (fuel : Nat) (rest : List Char), (∀ c ∈ s, rtChar c = true) ->
      s.length < fuel ->
      readStr fuel (s.flatMap jsonEncChar ++ dquote :: rest) = some (s, rest) := by
  induction s with
  | nil =>
    intro fuel rest _ hf
    cases fuel with
    | zero => simp at hf
    | succ f => simpa using readStr_dq f rest
  | cons c cs ih =>
    intro fuel rest h hf
    cases fuel with
    | zero => simp at hf
    | succ f =>
      have hc := h c (List.mem_cons_self c cs)
      have hrec := ih f rest (fun x hx => h x (List.mem_cons_of_mem _ hx))
        (by simp only [List.length_cons] at hf; omega)
      rw [List.flatMap_cons, List.append_assoc]
      rcases rtChar_cases c hc with ⟨h1, h2, h3, h4⟩ | rfl | rfl | rfl
      · by_cases hb : c = bslash
        · subst hb
          rw [show jsonEncChar bslash = [bslash, bslash] from by decide]
          show readStr (f + 1)
              (bslash :: bslash :: (cs.flatMap jsonEncChar ++ dquote :: rest))
            = some (bslash :: cs, rest)
          rw [readStr_esc f bslash bslash _ (by decide), hrec]
        · have ht9 : ¬ c = Char.ofNat 9 := fun he => by
            rw [he] at h1; exact absurd h1 (by decide)
          have ht10 : ¬ c = Char.ofNat 10 := fun he => by
            rw [he] at h1; exact absurd h1 (by decide)
          have ht13 : ¬ c = Char.ofNat 13 := fun he => by
            rw [he] at h1; exact absurd h1 (by decide)
          rw [show jsonEncChar c = [c] from by simp [jsonEncChar, hb, ht9, ht10, ht13]]
          rw [List.singleton_append]
          rw [readStr_plain f c _ h4 hb (by omega), hrec]
      · rw [show jsonEncChar (Char.ofNat 9) = [bslash, 't'] from by decide]
        show readStr (f + 1)
            (bslash :: 't' :: (cs.flatMap jsonEncChar ++ dquote :: rest))
          = some (Char.ofNat 9 :: cs, rest)
        rw [readStr_esc f 't' (Char.ofNat 9) _ (by decide), hrec]
      · rw [show jsonEncChar (Char.ofNat 10) = [bslash, 'n'] from by decide]
        show readStr (f + 1)
            (bslash :: 'n' :: (cs.flatMap jsonEncChar ++ dquote :: rest))
          = some (Char.ofNat 10 :: cs, rest)
        rw [readStr_esc f 'n' (Char.ofNat 10) _ (by decide), hrec]
      · rw [show jsonEncChar (Char.ofNat 13) = [bslash, 'r'] from by decide]
        show readStr (f + 1)
            (bslash :: 'r' :: (cs.flatMap jsonEncChar ++ dquote :: rest))
          = some (Char.ofNat 13 :: cs, rest)
        rw [readStr_esc f 'r' (Char.ofNat 13) _ (by decide), hrec]

/-- `str.replace` distributes over concatenation. -/
theorem charReplace_append (o n : Char) (a b : List Char) :
    charReplace o n (a ++ b) = charReplace o n a ++ charReplace o n b := by
  simp [charReplace]

/-- `str.replace` on a cons. -/
theorem charReplace_cons (o n c : Char) (l : List Char) :
    charReplace o n (c :: l) = (if c = o then n else c) :: charReplace o n l := rfl

/-- The quote substitution leaves a single-quote-free list unchanged. -/
theorem charReplace_clean (s : List Char) (h : squote ∉ s) :
    charReplace squote dquote s = s := by
  simp only [charReplace]
  have hcg : s.map (fun c => if c = squote then dquote else c) = s.map id :=
    List.map_congr_left (fun c hc => by
      have : ¬ c = squote := fun he => h (he ▸ hc)
      simp [this])
  simpa using hcg

/-- Python `repr` of a round-trippable string: single quotes around
the JSON-level encodings (the escapes they share). -/
theorem pyReprChars_rt (s : String) (h : rtStr s = true) :
    pyReprChars s = squote :: s.data.flatMap jsonEncChar ++ [squote] := by
  have hsq := rtStr_no_squote s h
  unfold pyReprChars
  rw [if_neg]
  · rw [flatMap_congr_on s.data (reprEscChar squote) jsonEncChar
      (fun c hc => reprEsc_eq_jsonEnc c (List.all_eq_true.mp h c hc))]
  · simp [List.contains, List.elem_eq_mem, hsq]

/-- The quote substitution turns the single-quoted literal of a
round-trippable string into the double-quoted one. -/
theorem charReplace_quoted (s : String) (h : rtStr s = true) :
    charReplace squote dquote (squote :: s.data.flatMap jsonEncChar ++ [squote])
      = dquote :: s.data.flatMap jsonEncChar ++ [dquote] := by
  rw [show squote :: s.data.flatMap jsonEncChar ++ [squote]
      = squote :: (s.data.flatMap jsonEncChar ++ [squote]) from rfl,
    charReplace_cons, if_pos rfl, charReplace_append,
    charReplace_clean (s.data.flatMap jsonEncChar)
      (squote_not_flatMap s.data (fun c hc => List.all_eq_true.mp h c hc))]
  rfl

/-- The quote substitution turns one serialized metadata entry into
its JSON member. -/
theorem charReplace_entry (kv : String × String) (hk : rtStr kv.1 = true)
    (hv : rtStr kv.2 = true) :
    charReplace squote dquote (pyReprChars kv.1 ++ ':' :: ' ' :: pyReprChars kv.2)
      = encKV kv := by
  rw [pyReprChars_rt _ hk, pyReprChars_rt _ hv, charReplace_append,
    charReplace_quoted _ hk]
  rw [show (':' :: ' ' :: (squote :: kv.2.data.flatMap jsonEncChar ++ [squote]) : List Char)
      = ':' :: (' ' :: (squote :: kv.2.data.flatMap jsonEncChar ++ [squote])) from rfl]
  rw [charReplace_cons, charReplace_cons, charReplace_quoted _ hv,
    if_neg (show ¬ (':' : Char) = squote from by decide),
    if_neg (show ¬ (' ' : Char) = squote from by decide)]
  simp [encKV]

/-- `intercalate` over a one-element list. -/
theorem intercalate_one (sep a : List Char) : List.intercalate sep [a] = a := by
  simp [List.intercalate]

/-- `intercalate` over a list of length at least two. -/
theorem intercalate_two (sep a b : List Char) (l : List (List Char)) :
    List.intercalate sep (a :: b :: l) = a ++ sep ++ List.intercalate sep (b :: l) := by
  simp [List.intercalate, List.append_assoc]

/-- The quote substitution turns the serialized metadata dict into
the opening brace followed by the JSON members. -/
theorem serializeReplace (d : List (String × String))
    (h : ∀ kv ∈ d, rtStr kv.1 = true ∧ rtStr kv.2 = true) :
    charReplace squote dquote (serializeMeta d) = lbraceC :: encPairsTail d := by
  unfold serializeMeta
  rw [show (lbraceC ::
        (List.intercalate [',', ' ']
          (d.map (fun kv => pyReprChars kv.1 ++ ':' :: ' ' :: pyReprChars kv.2)))
        ++ [rbraceC])
      = lbraceC ::
        ((List.intercalate [',', ' ']
          (d.map (fun kv => pyReprChars kv.1 ++ ':' :: ' ' :: pyReprChars kv.2)))
        ++ [rbraceC]) from rfl]
  rw [charReplace_cons, if_neg (by decide)]
  have haux : ∀ (d : List (String × String)),
      (∀ kv ∈ d, rtStr kv.1 = true ∧ rtStr kv.2 = true) →
      charReplace squote dquote
        ((List.intercalate [',', ' ']
          (d.map (fun kv => pyReprChars kv.1 ++ ':' :: ' ' :: pyReprChars kv.2)))
          ++ [rbraceC])
        = encPairsTail d := by
    intro d
    induction d with
    | nil => intro _; decide
    | cons kv rest ih =>
      intro hcl
      obtain ⟨hk, hv⟩ := hcl kv (List.mem_cons_self kv rest)
      cases rest with
      | nil =>
        rw [List.map_cons, List.map_nil, intercalate_one, charReplace_append,
          charReplace_entry kv hk hv]
        rfl
      | cons kv2 rest2 =>
        rw [List.map_cons, List.map_cons, intercalate_two, List.append_assoc,
          List.append_assoc, charReplace_append, charReplace_entry kv hk hv]
        have htl := ih (fun x hx => hcl x (List.mem_cons_of_mem kv hx))
        rw [List.map_cons] at htl
        rw [show (([',', ' '] : List Char) ++
            ((List.intercalate [',', ' ']
              ((pyReprChars kv2.1 ++ ':' :: ' ' :: pyReprChars kv2.2) ::
                rest2.map (fun kv => pyReprChars kv.1 ++ ':' :: ' ' :: pyReprChars kv.2)))
              ++ [rbraceC]))
            = ',' :: ' ' ::
              ((List.intercalate [',', ' ']
                ((pyReprChars kv2.1 ++ ':' :: ' ' :: pyReprChars kv2.2) ::
                  rest2.map (fun kv => pyReprChars kv.1 ++ ':' :: ' ' :: pyReprChars kv.2)))
                ++ [rbraceC]) from rfl]
        rw [charReplace_cons, charReplace_cons, htl,
          if_neg (show ¬ (',' : Char) = squote from by decide),
          if_neg (show ¬ (' ' : Char) = squote from by decide)]
        rw [show encPairsTail (kv :: kv2 :: rest2)
            = encKV kv ++ ',' :: ' ' :: encPairsTail (kv2 :: rest2) from rfl]
  exact congrArg (lbraceC :: ·) (haux d h)

/-- The member parser ignores a leading whitespace character. -/
theorem jsonPairs_cons_ws (f : Nat) (c : Char) (L : List Char) (h : isWs c = true) :
    jsonPairs f (c :: L) = jsonPairs f L := by
  cases f with
  | zero => rfl
  | succ f =>
    simp only [jsonPairs]
    rw [skipWs_cons_ws c L h]

/-- Parsing one substituted metadata member: the member parser
consumes `"key": "value"` exactly and continues according to the next
delimiter. -/
theorem jsonPairs_encKV (f : Nat) (k v : String) (X : List Char)
    (hk : rtStr k = true) (hv : rtStr v = true) :
    jsonPairs (f + 1) (encKV (k, v) ++ X)
      = match skipWs X with
        | [] => none
        | c :: cs =>
          if c = ',' then
            match jsonPairs f cs with
            | some (rest, rem) => some ((k, v) :: rest, rem)
            | none => none
          else if c = rbraceC then some ([(k, v)], cs)
          else none := by
  have hshape : encKV (k, v) ++ X
      = dquote :: (k.data.flatMap jsonEncChar
          ++ dquote :: ':' :: ' ' ::
            dquote :: (v.data.flatMap jsonEncChar ++ dquote :: X)) := by
    simp [encKV, List.append_assoc]
  rw [hshape]
  simp only [jsonPairs]
  rw [skipWs_cons_nws _ _ isWs_dquote]
  simp only [if_pos rfl]
  have hr1 : readStr
      ((k.data.flatMap jsonEncChar
        ++ dquote :: ':' :: ' ' ::
          dquote :: (v.data.flatMap jsonEncChar ++ dquote :: X)).length + 1)
      (k.data.flatMap jsonEncChar
        ++ dquote :: ':' :: ' ' ::
          dquote :: (v.data.flatMap jsonEncChar ++ dquote :: X))
      = some (k.data,
          ':' :: ' ' :: dquote :: (v.data.flatMap jsonEncChar ++ dquote :: X)) :=
    readStr_jsonEnc k.data _ _ (fun c hc => List.all_eq_true.mp hk c hc)
      (by
        simp only [List.length_append, List.length_cons]
        have := flatMap_jsonEnc_len k.data
        omega)
  rw [hr1]
  simp only []
  rw [skipWs_cons_nws _ _ isWs_colon]
  simp only [if_pos rfl]
  rw [skipWs_cons_ws _ _ isWs_space, skipWs_cons_nws _ _ isWs_dquote]
  simp only [if_pos rfl]
  have hr2 : readStr ((v.data.flatMap jsonEncChar ++ dquote :: X).length + 1)
      (v.data.flatMap jsonEncChar ++ dquote :: X)
      = some (v.data, X) :=
    readStr_jsonEnc v.data _ _ (fun c hc => List.all_eq_true.mp hv c hc)
      (by
        simp only [List.length_append, List.length_cons]
        have := flatMap_jsonEnc_len v.data
        omega)
  rw [hr2]
  rfl

/-- Each metadata entry serializes to at least one character. -/
theorem encPairsTail_length (d : List (String × String)) :
    d.length ≤ (encPairsTail d).length := by
  induction d with
  | nil => simp [encPairsTail]
  | cons kv rest ih =>
    cases rest with
    | nil => simp [encPairsTail, encKV]
    | cons kv2 rest2 =>
      rw [show encPairsTail (kv :: kv2 :: rest2)
          = encKV kv ++ ',' :: ' ' :: encPairsTail (kv2 :: rest2) from rfl]
      simp only [List.length_append, List.length_cons, encKV]
      simp only [List.length_cons] at ih
      omega

/-- The member parser reconstructs the entries from the substituted
serialization whenever the fuel covers the entry count. -/
theorem jsonPairs_encTail (d : List (String × String)) :
    ∀ (fuel : Nat), d ≠ [] →
      (∀ kv ∈ d, rtStr kv.1 = true ∧ rtStr kv.2 = true) →
      d.length ≤ fuel →
      jsonPairs fuel (encPairsTail d) = some (d, []) := by
  induction d with
  | nil => intro fuel hne; exact absurd rfl hne
  | cons kv rest ih =>
    intro fuel hne hcl hlen
    cases fuel with
    | zero => simp at hlen
    | succ f =>
      obtain ⟨hk, hv⟩ := hcl kv (List.mem_cons_self kv rest)
      obtain ⟨k, v⟩ := kv
      cases rest with
      | nil =>
        rw [show encPairsTail [(k, v)] = encKV (k, v) ++ [rbraceC] from rfl,
          jsonPairs_encKV f k v [rbraceC] hk hv,
          skipWs_cons_nws _ _ isWs_rbrace]
        simp only [if_neg (show ¬ rbraceC = ',' from by decide), if_pos rfl]
        rfl
      | cons kv2 rest2 =>
        rw [show encPairsTail ((k, v) :: kv2 :: rest2)
            = encKV (k, v) ++ ',' :: ' ' :: encPairsTail (kv2 :: rest2) from rfl,
          jsonPairs_encKV f k v (',' :: ' ' :: encPairsTail (kv2 :: rest2)) hk hv,
          skipWs_cons_nws _ _ isWs_comma]
        simp only [if_pos rfl]
        rw [jsonPairs_cons_ws f ' ' _ isWs_space,
          ih f (by simp) (fun x hx => hcl x (List.mem_cons_of_mem _ hx))
            (by simp only [List.length_cons] at hlen ⊢; omega)]
        rfl

/-- `json.loads` inverts the substituted serialization of a clean
metadata dict. -/
theorem jsonLoadsDict_enc (d : List (String × String))
    (h : ∀ kv ∈ d, rtStr kv.1 = true ∧ rtStr kv.2 = true) :
    jsonLoadsDict (lbraceC :: encPairsTail d) = some d := by
  cases d with
  | nil => decide
  | cons kv rest =>
    have htail : ∃ tail0, encPairsTail (kv :: rest) = dquote :: tail0 := by
      obtain ⟨k, v⟩ := kv
      cases rest with
      | nil => exact ⟨_, rfl⟩
      | cons kv2 rest2 => exact ⟨_, rfl⟩
    obtain ⟨tail0, htail⟩ := htail
    have hjp : jsonPairs ((dquote :: tail0).length + 1) (encPairsTail (kv :: rest))
        = some (kv :: rest, []) := by
      refine jsonPairs_encTail (kv :: rest) _ (by simp) h ?_
      have hl := encPairsTail_length (kv :: rest)
      rw [htail] at hl
      omega
    rw [htail] at hjp
    unfold jsonLoadsDict
    rw [skipWs_cons_nws _ _ isWs_lbrace]
    simp only [if_pos rfl]
    rw [htail, skipWs_cons_nws _ _ isWs_dquote]
    simp only [if_neg (show ¬ dquote = rbraceC from by decide)]
    rw [hjp]
    rfl

/-- Round trip of the metadata file: `json.loads` of the
quote-substituted `str(dict)` recovers a clean metadata dict
exactly. -/
theorem loadMeta_roundtrip (d : List (String × String))
    (h : ∀ kv ∈ d, rtStr kv.1 = true ∧ rtStr kv.2 = true) :
    loadMeta (serializeMeta d) = some d := by
  unfold loadMeta
  rw [serializeReplace d h, jsonLoadsDict_enc d h]

/-- A successful dict lookup means the dict is nonempty. -/
theorem dictFind_some_ne_nil (d : List (String × String)) (k t : String)
    (h : dictFind d k = some t) : d ≠ [] := by
  intro hnil
  subst hnil
  simp [dictFind] at h

/-- Python dict assignment preserves a property of all keys that the
new key also satisfies. -/
theorem dictSet_forall_keys (d : List (String × String)) (k v : String)
    (P : String → Prop) (hk : P k) (hd : ∀ kv ∈ d, P kv.1) :
    ∀ kv ∈ dictSet d k v, P kv.1 := by
  intro kv hkv
  unfold dictSet at hkv
  split at hkv
  · obtain ⟨kv0, hkv0, heq⟩ := List.mem_map.mp hkv
    by_cases h0 : kv0.1 = k
    · rw [if_pos h0] at heq
      rw [← heq]
      exact hk
    · rw [if_neg h0] at heq
      rw [← heq]
      exact hd kv0 hkv0
  · rcases List.mem_append.mp hkv with h | h
    · exact hd kv h
    · simp only [List.mem_singleton] at h
      rw [h]
      exact hk

/-- A fresh logger over a fresh directory satisfies the round-trip
invariant. -/
theorem GoodB_fresh (b : String) (k : Nat) :
    GoodB (freshLogger b k) emptyDir = true := rfl

/-- `__insert_scalar` preserves the round-trip invariant on success,
for a clean caller-given name. -/
theorem insertScalar_Good (st : LoggerState) (fs : DirContents) (n : String)
    (v : CellValue) (i : Option Int) (hst : GoodB st fs = true)
    (hn : rtStr n = true) (st1 : LoggerState)
    (hok : insertScalar st n v i = (.ok (), st1)) :
    GoodB st1 fs = true := by
  simp only [GoodB, Bool.and_eq_true] at hst
  obtain ⟨⟨⟨⟨⟨⟨h1, h2⟩, h3⟩, h4⟩, h5⟩, h6⟩, h7⟩ := hst
  have h4e : st.prefixStr = "" := by simpa using h4
  have h5e : st.postfixStr = some "" := by simpa using h5
  have hgn : get_name st n = .ok n := by
    unfold get_name
    rw [h5e]
    simp only []
    rw [h4e, String.empty_append, String.append_empty]
  unfold insertScalar at hok
  rw [hgn] at hok
  simp only [] at hok
  by_cases hcol : st.data.hasCol n = true
  · rw [if_pos hcol] at hok
    cases hf : dictFind st.metadata n with
    | none => rw [hf] at hok; simp at hok
    | some t =>
      rw [hf] at hok
      simp only [] at hok
      split_ifs at hok with ht
      · simp only [Prod.mk.injEq] at hok
        obtain ⟨-, hok⟩ := hok
        subst hok
        have hne : st.metadata ≠ [] := dictFind_some_ne_nil st.metadata n t hf
        have hie : st.metadata.isEmpty = false := by
          cases hd : st.metadata with
          | nil => exact absurd hd hne
          | cons a l => rfl
        simp only [GoodB, Bool.and_eq_true]
        refine ⟨⟨⟨⟨⟨⟨?_, h2⟩, h3⟩, h4⟩, h5⟩, h6⟩, ?_⟩
        · simpa [InvB, DataFrame.setCell] using h1
        · simp [hie]
      · simp at hok
  · rw [if_neg hcol] at hok
    have hdf : dictFind ({ st with
        data := st.data.addCol n
        metadata := dictSet st.metadata n "scalar"
        meta_changed := true } : LoggerState).metadata n = some "scalar" :=
      dictFind_set_self st.metadata n "scalar"
    rw [hdf] at hok
    simp only [] at hok
    rw [if_pos trivial] at hok
    simp only [Prod.mk.injEq] at hok
    obtain ⟨-, hok⟩ := hok
    subst hok
    have hne : dictSet st.metadata n "scalar" ≠ [] :=
      dictFind_some_ne_nil _ n "scalar" (dictFind_set_self st.metadata n "scalar")
    have hie : (dictSet st.metadata n "scalar").isEmpty = false := by
      cases hd : dictSet st.metadata n "scalar" with
      | nil => exact absurd hd hne
      | cons a l => rfl
    have hinv := InvB_create st n "scalar" h1 (by simpa using hcol)
    simp only [GoodB, Bool.and_eq_true]
    refine ⟨⟨⟨⟨⟨⟨?_, ?_⟩, ?_⟩, h4⟩, h5⟩, ?_⟩, ?_⟩
    · simpa [InvB, DataFrame.setCell] using hinv
    · refine List.all_eq_true.mpr ?_
      intro kv hkv
      exact dictSet_forall_values st.metadata n "scalar"
        (fun s => DATATYPES.contains s = true) (by decide)
        (fun x hx => List.all_eq_true.mp h2 x hx) kv hkv
    · refine List.all_eq_true.mpr ?_
      intro kv hkv
      exact dictSet_forall_keys st.metadata n "scalar"
        (fun s => rtStr s = true) hn
        (fun x hx => List.all_eq_true.mp h3 x hx) kv hkv
    · simp
    · simp [hie]

/-- `__insert_text` preserves the round-trip invariant on success,
for a clean caller-given name. -/
theorem insertText_Good (st : LoggerState) (fs : DirContents) (n : String)
    (v : CellValue) (i : Option Int) (hst : GoodB st fs = true)
    (hn : rtStr n = true) (st1 : LoggerState)
    (hok : insertText st n v i = (.ok (), st1)) :
    GoodB st1 fs = true := by
  simp only [GoodB, Bool.and_eq_true] at hst
  obtain ⟨⟨⟨⟨⟨⟨h1, h2⟩, h3⟩, h4⟩, h5⟩, h6⟩, h7⟩ := hst
  have h4e : st.prefixStr = "" := by simpa using h4
  have h5e : st.postfixStr = some "" := by simpa using h5
  have hgn : get_name st n = .ok n := by
    unfold get_name
    rw [h5e]
    simp only []
    rw [h4e, String.empty_append, String.append_empty]
  unfold insertText at hok
  rw [hgn] at hok
  simp only [] at hok
  by_cases hcol : st.data.hasCol n = true
  · rw [if_pos hcol] at hok
    cases hf : dictFind st.metadata n with
    | none => rw [hf] at hok; simp at hok
    | some t =>
      rw [hf] at hok
      simp only [] at hok
      split_ifs at hok with ht
      · simp only [Prod.mk.injEq] at hok
        obtain ⟨-, hok⟩ := hok
        subst hok
        have hne : st.metadata ≠ [] := dictFind_some_ne_nil st.metadata n t hf
        have hie : st.metadata.isEmpty = false := by
          cases hd : st.metadata with
          | nil => exact absurd hd hne
          | cons a l => rfl
        simp only [GoodB, Bool.and_eq_true]
        refine ⟨⟨⟨⟨⟨⟨?_, h2⟩, h3⟩, h4⟩, h5⟩, h6⟩, ?_⟩
        · simpa [InvB, DataFrame.setCell] using h1
        · simp [hie]
      · simp at hok
  · rw [if_neg hcol] at hok
    have hdf : dictFind ({ st with
        data := st.data.addCol n
        metadata := dictSet st.metadata n "text"
        meta_changed := true } : LoggerState).metadata n = some "text" :=
      dictFind_set_self st.metadata n "text"
    rw [hdf] at hok
    simp only [] at hok
    rw [if_pos trivial] at hok
    simp only [Prod.mk.injEq] at hok
    obtain ⟨-, hok⟩ := hok
    subst hok
    have hne : dictSet st.metadata n "text" ≠ [] :=
      dictFind_some_ne_nil _ n "text" (dictFind_set_self st.metadata n "text")
    have hie : (dictSet st.metadata n "text").isEmpty = false := by
      cases hd : dictSet st.metadata n "text" with
      | nil => exact absurd hd hne
      | cons a l => rfl
    have hinv := InvB_create st n "text" h1 (by simpa using hcol)
    simp only [GoodB, Bool.and_eq_true]
    refine ⟨⟨⟨⟨⟨⟨?_, ?_⟩, ?_⟩, h4⟩, h5⟩, ?_⟩, ?_⟩
    · simpa [InvB, DataFrame.setCell] using hinv
    · refine List.all_eq_true.mpr ?_
      intro kv hkv
      exact dictSet_forall_values st.metadata n "text"
        (fun s => DATATYPES.contains s = true) (by decide)
        (fun x hx => List.all_eq_true.mp h2 x hx) kv hkv
    · refine List.all_eq_true.mpr ?_
      intro kv hkv
      exact dictSet_forall_keys st.metadata n "text"
        (fun s => rtStr s = true) hn
        (fun x hx => List.all_eq_true.mp h3 x hx) kv hkv
    · simp
    · simp [hie]

/-- `save` preserves the round-trip invariant (any force flag). -/
theorem save_Good (st : LoggerState) (fs : DirContents) (force : Bool)
    (h : GoodB st fs = true) :
    GoodB (save st fs force).1 (save st fs force).2 = true := by
  simp only [GoodB, Bool.and_eq_true] at h
  obtain ⟨⟨⟨⟨⟨⟨h1, h2⟩, h3⟩, h4⟩, h5⟩, h6⟩, h7⟩ := h
  unfold save
  simp only []
  by_cases hw : (force || decide (st.save_calls + 1 ≥ st.save_freq)) = true
  · rw [if_pos hw]
    by_cases hmc : st.meta_changed = true
    · rw [if_pos hmc]
      simp only [GoodB, Bool.and_eq_true]
      refine ⟨⟨⟨⟨⟨⟨h1, h2⟩, h3⟩, h4⟩, h5⟩, ?_⟩, h7⟩
      simp
    · rw [if_neg hmc]
      simp only [GoodB, Bool.and_eq_true]
      exact ⟨⟨⟨⟨⟨⟨h1, h2⟩, h3⟩, h4⟩, h5⟩, h6⟩, h7⟩
  · rw [if_neg hw]
    simp only [GoodB, Bool.and_eq_true]
    exact ⟨⟨⟨⟨⟨⟨h1, h2⟩, h3⟩, h4⟩, h5⟩, h6⟩, h7⟩

/-- `add_scalar` preserves the round-trip invariant on success. -/
theorem add_scalar_Good (st : LoggerState) (fs : DirContents) (n : String)
    (v : CellValue) (i : Option Int) (st1 : LoggerState) (fs1 : DirContents)
    (h : GoodB st fs = true) (hn : rtStr n = true)
    (hok : add_scalar st fs n v i = (.ok (), st1, fs1)) :
    GoodB st1 fs1 = true := by
  unfold add_scalar at hok
  rcases hins : insertScalar st n v i with ⟨r, st2⟩
  rw [hins] at hok
  cases r with
  | error e => simp at hok
  | ok u =>
    have hg2 := insertScalar_Good st fs n v i h hn st2 hins
    have hg3 := save_Good st2 fs false hg2
    simp only [Prod.mk.injEq] at hok
    obtain ⟨-, hA, hB⟩ := hok
    rw [← hA, ← hB]
    exact hg3

/-- `add_text` preserves the round-trip invariant on success. -/
theorem add_text_Good (st : LoggerState) (fs : DirContents) (n : String)
    (v : CellValue) (i : Option Int) (st1 : LoggerState) (fs1 : DirContents)
    (h : GoodB st fs = true) (hn : rtStr n = true)
    (hok : add_text st fs n v i = (.ok (), st1, fs1)) :
    GoodB st1 fs1 = true := by
  unfold add_text at hok
  rcases hins : insertText st n v i with ⟨r, st2⟩
  rw [hins] at hok
  cases r with
  | error e => simp at hok
  | ok u =>
    have hg2 := insertText_Good st fs n v i h hn st2 hins
    have hg3 := save_Good st2 fs false hg2
    simp only [Prod.mk.injEq] at hok
    obtain ⟨-, hA, hB⟩ := hok
    rw [← hA, ← hB]
    exact hg3

/-- `add_image` preserves the round-trip invariant on success. -/
theorem add_image_Good (st : LoggerState) (fs : DirContents) (n : String)
    (i : Option Int) (st1 : LoggerState) (fs1 : DirContents)
    (hst : GoodB st fs = true) (hn : rtStr n = true)
    (hok : add_image st fs n i = (.ok (), st1, fs1)) :
    GoodB st1 fs1 = true := by
  simp only [GoodB, Bool.and_eq_true] at hst
  obtain ⟨⟨⟨⟨⟨⟨h1, h2⟩, h3⟩, h4⟩, h5⟩, h6⟩, h7⟩ := hst
  have h4e : st.prefixStr = "" := by simpa using h4
  have h5e : st.postfixStr = some "" := by simpa using h5
  have hgn : get_name st n = .ok n := by
    unfold get_name
    rw [h5e]
    simp only []
    rw [h4e, String.empty_append, String.append_empty]
  unfold add_image at hok
  rw [hgn] at hok
  simp only [] at hok
  by_cases hcol : st.data.hasCol n = true
  · rw [if_pos hcol] at hok
    cases hf : dictFind st.metadata n with
    | none => rw [hf] at hok; simp at hok
    | some t =>
      rw [hf] at hok
      simp only [] at hok
      split_ifs at hok with ht
      · simp only [Prod.mk.injEq] at hok
        obtain ⟨-, hA, hB⟩ := hok
        rw [← hA, ← hB]
        refine save_Good _ _ false ?_
        have hne : st.metadata ≠ [] := dictFind_some_ne_nil st.metadata n t hf
        have hie : st.metadata.isEmpty = false := by
          cases hd : st.metadata with
          | nil => exact absurd hd hne
          | cons a l => rfl
        simp only [GoodB, Bool.and_eq_true]
        refine ⟨⟨⟨⟨⟨⟨?_, h2⟩, h3⟩, h4⟩, h5⟩, h6⟩, ?_⟩
        · simpa [InvB, DataFrame.setCell] using h1
        · simp [hie]
      · simp at hok
  · rw [if_neg hcol] at hok
    have hdf : dictFind ({ st with
        data := st.data.addCol n
        metadata := dictSet st.metadata n "img"
        meta_changed := true } : LoggerState).metadata n = some "img" :=
      dictFind_set_self st.metadata n "img"
    rw [hdf] at hok
    simp only [] at hok
    rw [if_pos trivial] at hok
    simp only [Prod.mk.injEq] at hok
    obtain ⟨-, hA, hB⟩ := hok
    rw [← hA, ← hB]
    refine save_Good _ _ false ?_
    have hne : dictSet st.metadata n "img" ≠ [] :=
      dictFind_some_ne_nil _ n "img" (dictFind_set_self st.metadata n "img")
    have hie : (dictSet st.metadata n "img").isEmpty = false := by
      cases hd : dictSet st.metadata n "img" with
      | nil => exact absurd hd hne
      | cons a l => rfl
    have hinv := InvB_create st n "img" h1 (by simpa using hcol)
    simp only [GoodB, Bool.and_eq_true]
    refine ⟨⟨⟨⟨⟨⟨?_, ?_⟩, ?_⟩, h4⟩, h5⟩, ?_⟩, ?_⟩
    · simpa [InvB, DataFrame.setCell] using hinv
    · refine List.all_eq_true.mpr ?_
      intro kv hkv
      exact dictSet_forall_values st.metadata n "img"
        (fun s => DATATYPES.contains s = true) (by decide)
        (fun x hx => List.all_eq_true.mp h2 x hx) kv hkv
    · refine List.all_eq_true.mpr ?_
      intro kv hkv
      exact dictSet_forall_keys st.metadata n "img"
        (fun s => rtStr s = true) hn
        (fun x hx => List.all_eq_true.mp h3 x hx) kv hkv
    · simp
    · simp [hie]

/-- Any successful `add_*` call preserves the round-trip invariant. -/
theorem applyAddOp_Good (st : LoggerState) (fs : DirContents) (op : AddOp)
    (st1 : LoggerState) (fs1 : DirContents) (h : GoodB st fs = true)
    (hn : rtStr op.opName = true)
    (hok : applyAddOp st fs op = (.ok (), st1, fs1)) :
    GoodB st1 fs1 = true := by
  cases op with
  | scalar n v i => exact add_scalar_Good st fs n v i st1 fs1 h hn hok
  | text n v i => exact add_text_Good st fs n v i st1 fs1 h hn hok
  | image n i => exact add_image_Good st fs n i st1 fs1 h hn hok

/-- A successful run of `add_*` calls with clean names preserves the
round-trip invariant. -/
theorem runAddOps_Good (ops : List AddOp) :
    ∀ (st : LoggerState) (fs : DirContents) (st1 : LoggerState) (fs1 : DirContents),
      GoodB st fs = true → (∀ op ∈ ops, rtStr op.opName = true) →
      runAddOps st fs ops = .ok (st1, fs1) → GoodB st1 fs1 = true := by
  induction ops with
  | nil =>
    intro st fs st1 fs1 h _ hrun
    unfold runAddOps at hrun
    simp only [Except.ok.injEq, Prod.mk.injEq] at hrun
    obtain ⟨hA, hB⟩ := hrun
    rw [← hA, ← hB]
    exact h
  | cons op rest ih =>
    intro st fs st1 fs1 h hcl hrun
    unfold runAddOps at hrun
    rcases hap : applyAddOp st fs op with ⟨r, st2, fs2⟩
    rw [hap] at hrun
    cases r with
    | error e => simp at hrun
    | ok u =>
      have h2 := applyAddOp_Good st fs op st2 fs2 h (hcl op (List.mem_cons_self op rest)) hap
      exact ih st2 fs2 st1 fs1 h2 (fun x hx => hcl x (List.mem_cons_of_mem op hx)) hrun

/-- `__init__` on a directory holding a written frame and the
serialized metadata of a clean dict reconstructs that dict and frame
exactly. -/
theorem initTL_ok (dir : DirContents) (df : DataFrame) (md : List (String × String))
    (hdf : dir.dataFile = some df) (hmf : dir.metaFile = some (serializeMeta md))
    (hclean : ∀ kv ∈ md, rtStr kv.1 = true ∧ rtStr kv.2 = true)
    (hseq : setEqB (md.map Prod.fst) df.cols = true)
    (htys : ((md.map Prod.snd).all fun v => DATATYPES.contains v) = true)
    (ans b2 : String) (k2 : Nat) :
    initTrainingLogger (some dir) true ans k2 b2
      = .ok ({ basename := b2
               data := df
               metadata := md
               meta_changed := false
               save_freq := k2
               save_calls := 0
               prefixStr := ""
               postfixStr := some "" }, dir) := by
  unfold initTrainingLogger
  simp only []
  rw [hdf]
  simp only []
  rw [if_neg (by simp), hmf]
  simp only []
  rw [loadMeta_roundtrip md hclean]
  simp only []
  rw [if_pos hseq, if_pos htys]

/-- `__init__` on a directory holding a frame but no metadata file
lands in the `except` handler and, with `overwrite=True`, returns a
fresh logger over an emptied directory. -/
theorem initTL_handler (dir : DirContents) (df : DataFrame)
    (hdf : dir.dataFile = some df) (hmf : dir.metaFile = none)
    (ans b2 : String) (k2 : Nat) :
    initTrainingLogger (some dir) true ans k2 b2 = .ok (freshLogger b2 k2, emptyDir) := by
  unfold initTrainingLogger
  simp only []
  rw [hdf]
  simp only []
  rw [if_neg (by simp), hmf]
  rfl

/-- After a `flush`, reconstructing the logger from the directory
recovers the table and metadata exactly (for a state satisfying the
round-trip invariant). -/
theorem reload_Good (st : LoggerState) (fs : DirContents) (h : GoodB st fs = true)
    (ans b2 : String) (k2 : Nat) :
    ∃ fs2, initTrainingLogger (some (flush st fs).2) true ans k2 b2
      = .ok ({ basename := b2
               data := st.data
               metadata := st.metadata
               meta_changed := false
               save_freq := k2
               save_calls := 0
               prefixStr := ""
               postfixStr := some "" }, fs2) := by
  simp only [GoodB, Bool.and_eq_true] at h
  obtain ⟨⟨⟨⟨⟨⟨h1, h2⟩, h3⟩, h4⟩, h5⟩, h6⟩, h7⟩ := h
  have hclean : ∀ kv ∈ st.metadata, rtStr kv.1 = true ∧ rtStr kv.2 = true := by
    intro kv hkv
    refine ⟨List.all_eq_true.mp h3 kv hkv, ?_⟩
    have hdt := List.all_eq_true.mp h2 kv hkv
    have hor : kv.2 = "scalar" ∨ kv.2 = "img" ∨ kv.2 = "text" := by
      simpa [DATATYPES, List.contains, List.elem_eq_mem] using hdt
    rcases hor with hv | hv | hv <;> rw [hv] <;> decide
  have hseq : setEqB (st.metadata.map Prod.fst) st.data.cols = true := h1
  have htys : ((st.metadata.map Prod.snd).all fun v => DATATYPES.contains v) = true := by
    refine List.all_eq_true.mpr ?_
    intro x hx
    obtain ⟨kv, hkv, hre⟩ := List.mem_map.mp hx
    rw [← hre]
    exact List.all_eq_true.mp h2 kv hkv
  by_cases hmc : st.meta_changed = true
  · have hfl : (flush st fs).2
        = { fs with dataFile := some st.data
                    metaFile := some (serializeMeta st.metadata) } := by
      unfold flush save
      simp only []
      rw [if_pos (by simp), if_pos hmc]
    rw [hfl]
    exact ⟨_, initTL_ok
      { fs with dataFile := some st.data
                metaFile := some (serializeMeta st.metadata) }
      st.data st.metadata rfl rfl hclean hseq htys ans b2 k2⟩
  · have hmcf : st.meta_changed = false := by
      cases hb : st.meta_changed with
      | false => rfl
      | true => exact absurd hb hmc
    have hfl : (flush st fs).2 = { fs with dataFile := some st.data } := by
      unfold flush save
      simp only []
      rw [if_pos (by simp), if_neg hmc]
    rw [hfl]
    rw [hmcf] at h6
    simp only [Bool.false_or, Bool.or_eq_true, Bool.and_eq_true] at h6
    rcases h6 with h6 | ⟨h6a, h6b⟩
    · have hmf : fs.metaFile = some (serializeMeta st.metadata) := by simpa using h6
      exact ⟨_, initTL_ok { fs with dataFile := some st.data }
        st.data st.metadata rfl hmf hclean hseq htys ans b2 k2⟩
    · have hmf : fs.metaFile = none := by simpa using h6b
      have hmd : st.metadata = [] := by
        cases hx : st.metadata with
        | nil => rfl
        | cons a l => rw [hx] at h6a; simp at h6a
      have hdata : st.data = DataFrame.empty := by
        rw [hmd] at h7
        simpa using h7
      refine ⟨emptyDir, ?_⟩
      rw [hmd, hdata]
      rw [initTL_handler { fs with dataFile := some DataFrame.empty }
        DataFrame.empty rfl hmf ans b2 k2]
      rfl

/-- C1, counterexample.  The round trip breaks, in two ways the
original claim does not allow.  First, for a column name containing a
single quote, here `a'b`: Python `repr` then renders the metadata
dict with double quotes around that key, the blanket `.replace` of
single quotes by double quotes (which exists to turn the usual `repr`
output into JSON) corrupts the raw inner quote, and the
reconstruction raises `json.JSONDecodeError`.  Second, for a column
name containing a control character, here `a`, bell (`U+0007`), `b`:
`repr` writes the key as `a\x07b`, and `\x` is not a JSON escape, so
`json.loads` raises `JSONDecodeError` (`Invalid \escape`).  In both
cases one successful `add_scalar` on a fresh logger followed by
`flush()` makes `__init__` on the written directory fail instead of
returning an identical logger. -/
theorem C1_counterexample :
    (runAddOps (freshLogger "run" 50) emptyDir
        [AddOp.scalar (String.mk [Char.ofNat 97, squote, Char.ofNat 98])
          (.num 1) none]).map
      (fun p => (initTrainingLogger (some (flush p.1 p.2).2) true "" 50 "run").map
        Prod.fst)
    = .ok (.error .jsonDecodeError) ∧
    (runAddOps (freshLogger "run" 50) emptyDir
        [AddOp.scalar (String.mk [Char.ofNat 97, Char.ofNat 7, Char.ofNat 98])
          (.num 1) none]).map
      (fun p => (initTrainingLogger (some (flush p.1 p.2).2) true "" 50 "run").map
        Prod.fst)
    = .ok (.error .jsonDecodeError) := by
  refine ⟨by decide, by decide⟩

/-- C1, amended: round-trip persistence for round-trippable names.
For every sequence of `add_scalar`/`add_text`/`add_image` calls on a
fresh logger whose caller-given names consist of printable ASCII
characters other than the two quote characters (backslash allowed),
plus tab, newline and carriage return, if the sequence runs without
raising and is followed by `flush()`, then reconstructing a logger
from the written directory succeeds and yields the identical table
and metadata: the same column set, the same column-to-type map (with
cell values stored in the frame the `to_csv`/`read_csv` pair
preserves, image cells by path), and a logger otherwise in its
initial state. -/
theorem C1_roundtrip_amended (b : String) (k : Nat) (ops : List AddOp)
    (hclean : ∀ op ∈ ops, rtStr op.opName = true)
    (st : LoggerState) (fs : DirContents)
    (hrun : runAddOps (freshLogger b k) emptyDir ops = .ok (st, fs))
    (ans b2 : String) (k2 : Nat) :
    ∃ fs2, initTrainingLogger (some (flush st fs).2) true ans k2 b2
      = .ok ({ basename := b2
               data := st.data
               metadata := st.metadata
               meta_changed := false
               save_freq := k2
               save_calls := 0
               prefixStr := ""
               postfixStr := some "" }, fs2) := by
  have hg := runAddOps_Good ops (freshLogger b k) emptyDir st fs
    (GoodB_fresh b k) hclean hrun
  exact reload_Good st fs hg ans b2 k2

/-- Witness for the amended C1 at a concrete input: one clean
`add_scalar("loss", 1)` on a fresh logger, then flush and
reconstruct; the reloaded logger holds the same one-column table and
metadata. -/
theorem C1_roundtrip_amended_witness :
    (∀ op ∈ ([AddOp.scalar "loss" (.num 1) none] : List AddOp),
      rtStr op.opName = true) ∧
    runAddOps (freshLogger "run" 2) emptyDir [AddOp.scalar "loss" (.num 1) none]
      = .ok ({ basename := "run"
               data := { cols := ["loss"], idx := [0],
                         cells := [((0, "loss"), CellValue.num 1)] }
               metadata := [("loss", "scalar")]
               meta_changed := true
               save_freq := 2
               save_calls := 1
               prefixStr := ""
               postfixStr := some "" }, emptyDir) ∧
    ∃ fs2, initTrainingLogger
        (some (flush { basename := "run"
                       data := { cols := ["loss"], idx := [0],
                                 cells := [((0, "loss"), CellValue.num 1)] }
                       metadata := [("loss", "scalar")]
                       meta_changed := true
                       save_freq := 2
                       save_calls := 1
                       prefixStr := ""
                       postfixStr := some "" } emptyDir).2) true "" 7 "other"
      = .ok ({ basename := "other"
               data := { cols := ["loss"], idx := [0],
                         cells := [((0, "loss"), CellValue.num 1)] }
               metadata := [("loss", "scalar")]
               meta_changed := false
               save_freq := 7
               save_calls := 0
               prefixStr := ""
               postfixStr := some "" }, fs2) :=
  ⟨by decide, by decide,
   C1_roundtrip_amended "run" 2 [AddOp.scalar "loss" (.num 1) none] (by decide)
     { basename := "run"
       data := { cols := ["loss"], idx := [0],
                 cells := [((0, "loss"), CellValue.num 1)] }
       metadata := [("loss", "scalar")]
       meta_changed := true
       save_freq := 2
       save_calls := 1
       prefixStr := ""
       postfixStr := some "" } emptyDir (by decide) "" "other" 7⟩

end TL
